import Mathlib

/-!
Shallow embedding of the BaptistLargerCatechism document-generation scripts.

Source files embedded here:
- `.github/scripts/toml_to_markdown.py` (self-contained Markdown pipeline)
- `.github/scripts/answer/__init__.py`  (LaTeX answer processing)
- `.github/scripts/footnotes/__init__.py`, `.github/scripts/question/__init__.py`
- `.github/scripts/toml_to_latex.py`    (LaTeX pipeline / sorting)

The LaTeX scripts import `shared.models` and `shared.utils`, which are not part
of the given sources; the handful of helpers taken from there are modelled from
the spec and marked as such in their doc comments.

Conventions:
- Python `str` is Lean `String` (in this toolchain a wrapper around `List Char`).
- Python regex character classes `\d` / `\s` are modelled by `Char.isDigit` /
  `Char.isWhitespace` (the source data is ASCII; the unicode fringe of the
  Python classes is out of scope).
- Mutation (`sections[i].text = ...` in `process_hierarchical_answer`) is
  modelled by returning the updated section list alongside the output.
-/

set_option maxRecDepth 4000

namespace Catechism

/-- `Section` dataclass: one fragment of an answer, `text` plus an optional
verse-reference string (empty string means no verses). -/
structure Section where
  text : String
  verses : String
deriving DecidableEq, Repr

/-- `Question` dataclass: id, question text, ordered sections. -/
structure Question where
  id : String
  question : String
  sections : List Section
deriving DecidableEq, Repr

/-- `Footnote` dataclass: sequence number plus verse-reference string. -/
structure Footnote where
  number : Nat
  verses : String
deriving DecidableEq, Repr

/-! ### String primitives

Python's `str.strip`, substring test (`in`), `str.split` and `str.replace`
are modelled by structural functions on `List Char` (the core `String`
versions do not reduce inside the kernel). -/

/-- Drop whitespace from both ends (Python `str.strip()`). -/
def trimList (cs : List Char) : List Char :=
  ((cs.dropWhile Char.isWhitespace).reverse.dropWhile Char.isWhitespace).reverse

/-- Python `str.strip()` on strings. -/
def pyStrip (s : String) : String := String.mk (trimList s.data)

/-- Does `pat` start the list? -/
def isPrefixList : List Char → List Char → Bool
  | [], _ => true
  | _ :: _, [] => false
  | p :: ps, c :: cs => p = c && isPrefixList ps cs

/-- Does `pat` occur anywhere in the list (Python `pat in s`)? -/
def containsSubList (pat : List Char) : List Char → Bool
  | [] => isPrefixList pat []
  | c :: cs => isPrefixList pat (c :: cs) || containsSubList pat cs

/-- Characters before the first occurrence of `pat` (Python
`s.split(pat)[0]` when `pat` occurs). -/
def takeUntilSub (pat : List Char) : List Char → List Char
  | [] => []
  | c :: cs => if isPrefixList pat (c :: cs) then [] else c :: takeUntilSub pat cs

/-- Replace every non-overlapping occurrence of `pat`, left to right (Python
`str.replace` for a non-empty pattern).  The fuel argument makes the
recursion structural; `replaceSubList` supplies enough fuel for the whole
list. -/
def replaceSubFuel (pat rep : List Char) : Nat → List Char → List Char
  | 0, cs => cs
  | _ + 1, [] => []
  | fuel + 1, c :: cs =>
      if isPrefixList pat (c :: cs) then
        rep ++ replaceSubFuel pat rep fuel ((c :: cs).drop pat.length)
      else c :: replaceSubFuel pat rep fuel cs

/-- Python `str.replace` (for the non-empty patterns used here). -/
def replaceSubList (pat rep cs : List Char) : List Char :=
  replaceSubFuel pat rep cs.length cs

/-! ### Pattern matching helpers (regexes of the source, on `List Char`) -/

/-- Match of the regex `^(\d+)\.\s` used by `is_enumerated_list_item`,
`get_list_item_number` and `strip_list_item_number` in `toml_to_markdown.py`:
one or more digits, a period, one whitespace character.  Returns the digit
group and the remainder after the matched span. -/
def enumMatch (cs : List Char) : Option (List Char × List Char) :=
  match cs.dropWhile Char.isDigit with
  | c1 :: c2 :: rest =>
      if cs.takeWhile Char.isDigit ≠ [] ∧ c1 = '.' ∧ c2.isWhitespace then
        some (cs.takeWhile Char.isDigit, rest)
      else none
  | _ => none

/-- `is_enumerated_list_item` (`toml_to_markdown.py`, lines 68-71): text starts
with a number followed by a period and a whitespace character. -/
def is_enumerated_list_item (text : String) : Bool :=
  (enumMatch text.data).isSome

/-- `get_list_item_number` (`toml_to_markdown.py`, lines 82-86): the digit
group of the match, as a string. -/
def get_list_item_number (text : String) : Option String :=
  (enumMatch text.data).map fun p => String.mk p.1

/-- `strip_list_item_number` (`toml_to_markdown.py`, lines 88-91): `re.sub` of
the anchored pattern removes the matched span (at most one match since the
pattern is anchored at the start). -/
def strip_list_item_number (text : String) : String :=
  match enumMatch text.data with
  | some p => String.mk p.2
  | none => text

/-- Numeric value of a digit group (Python `int(...)`). -/
def natOfDigits (ds : List Char) : Nat :=
  ds.foldl (fun n c => n * 10 + (c.toNat - '0'.toNat)) 0

/-- Match of the regex `^(\d+)\.\s+From\s+(.*)` used by
`detect_hierarchical_answer` and `process_hierarchical_answer`
(`answer/__init__.py`): digits, period, whitespace run, `From`, whitespace
run, rest of line.  Returns `int(group(1))` and `group(2)`; `.` does not match
a newline, so the second group stops at the first `'\n'`.  The pattern without
the final group (`^\d+\.\s+From\s+`) matches exactly when this returns
`some`. -/
def hierMatch (cs : List Char) : Option (Nat × List Char) :=
  match cs.dropWhile Char.isDigit with
  | '.' :: rest =>
      if cs.takeWhile Char.isDigit = [] then none
      else if rest.takeWhile Char.isWhitespace = [] then none
      else
        match rest.dropWhile Char.isWhitespace with
        | 'F' :: 'r' :: 'o' :: 'm' :: rest2 =>
            if rest2.takeWhile Char.isWhitespace = [] then none
            else
              some (natOfDigits (cs.takeWhile Char.isDigit),
                    (rest2.dropWhile Char.isWhitespace).takeWhile (· ≠ '\n'))
        | _ => none
  | _ => none

/-- A section with non-empty text matching `^\d+\.\s+From\s+` (the
comprehension filter of `detect_hierarchical_answer`). -/
def hierSection (s : Section) : Bool :=
  decide (s.text ≠ "") && (hierMatch s.text.data).isSome

/-- `detect_hierarchical_answer` (`answer/__init__.py`, lines 18-25): three or
more sections with non-empty text matching `^\d+\.\s+From\s+`. -/
def detect_hierarchical_answer (sections : List Section) : Bool :=
  3 ≤ (sections.filter hierSection).length

/-! ### Markdown renderer (`toml_to_markdown.py`) -/

/-- `should_format_as_enumerated_list` (`toml_to_markdown.py`, lines 73-80):
false on no non-empty sections, else at least three non-empty sections that
are enumerated list items. -/
def should_format_as_enumerated_list (sections : List Section) : Bool :=
  let non_empty := sections.filter fun s => s.text ≠ ""
  if non_empty = [] then false
  else 3 ≤ (non_empty.filter fun s => is_enumerated_list_item s.text).length

/-- Per-character substitution on character lists. -/
def rcData (pat : Char) (rep : List Char) (l : List Char) : List Char :=
  (l.map fun c => if c = pat then rep else [c]).flatten

/-- Per-character substitution: Python `str.replace` with a single-character
pattern replaces every occurrence of that character. -/
def replaceChar (pat : Char) (rep : String) (s : String) : String :=
  String.mk (rcData pat rep.data s.data)

/-- `create_bible_url` (`toml_to_markdown.py`, lines 93-96): chain of
`.replace(' ','+').replace(':','%3A').replace(';','%3B').replace(',','%2C')`
wrapped in the BibleGateway URL. -/
def create_bible_url (verses : String) : String :=
  "https://www.biblegateway.com/passage/?search="
    ++ replaceChar ',' "%2C" (replaceChar ';' "%3B"
        (replaceChar ':' "%3A" (replaceChar ' ' "+" verses)))
    ++ "&version=ESV"

/-- One markdown footnote line, `f"{footnote.number}. [{footnote.verses}]({bible_url})\n"`. -/
def mdFootnoteLine (f : Footnote) : String :=
  toString f.number ++ ". [" ++ f.verses ++ "](" ++ create_bible_url f.verses ++ ")\n"

/-- `format_footnotes` (`toml_to_markdown.py`, lines 98-105): one line per
footnote with non-empty verses. -/
def format_footnotes : List Footnote → String
  | [] => ""
  | f :: rest =>
      (if f.verses ≠ "" then mdFootnoteLine f else "") ++ format_footnotes rest

/-- Inline superscript marker `$^{n}$` (written with `\x7b`/`\x7d` for the
braces). -/
def marker (n : Nat) : String := "$^\x7b" ++ toString n ++ "\x7d$"

/-- Loop body of `format_regular_sections` (`toml_to_markdown.py`, lines
107-124): skip empty text; with verses append text, marker, trailing space and
a footnote; without verses append text and a space. -/
def format_regular_aux : List Section → Nat → String × List Footnote
  | [], _ => ("", [])
  | s :: rest, n =>
      if s.text = "" then format_regular_aux rest n
      else if s.verses ≠ "" then
        let r := format_regular_aux rest (n + 1)
        (s.text ++ marker n ++ " " ++ r.1, ⟨n, s.verses⟩ :: r.2)
      else
        let r := format_regular_aux rest n
        (s.text ++ " " ++ r.1, r.2)

/-- `format_regular_sections`: the loop starting at counter 1, final
`.strip()`. -/
def format_regular_sections (sections : List Section) : String × List Footnote :=
  let r := format_regular_aux sections 1
  (pyStrip r.1, r.2)

/-- Loop body of `format_non_list_items` (`toml_to_markdown.py`, lines
157-174): like the regular loop but also skipping enumerated list items. -/
def format_non_list_aux : List Section → Nat → String × List Footnote
  | [], _ => ("", [])
  | s :: rest, n =>
      if s.text = "" ∨ is_enumerated_list_item s.text then format_non_list_aux rest n
      else if s.verses ≠ "" then
        let r := format_non_list_aux rest (n + 1)
        (s.text ++ marker n ++ " " ++ r.1, ⟨n, s.verses⟩ :: r.2)
      else
        let r := format_non_list_aux rest n
        (s.text ++ " " ++ r.1, r.2)

/-- `format_non_list_items`: loop from counter 1, final `.strip()`. -/
def format_non_list_items (sections : List Section) : String × List Footnote :=
  let r := format_non_list_aux sections 1
  (pyStrip r.1, r.2)

/-- List-item loop of `format_enumerated_list` (`toml_to_markdown.py`, lines
132-154): skip sections with empty text or not enumerated; a `"\n"` precedes
every item except the first; each item re-emits its source number, then the
stripped text, then the marker when verses are present. -/
def md_list_aux : List Section → Nat → Bool → String × List Footnote
  | [], _, _ => ("", [])
  | s :: rest, n, first =>
      if s.text = "" ∨ ¬ is_enumerated_list_item s.text then md_list_aux rest n first
      else
        let pre := if first then "" else "\n"
        let num := (get_list_item_number s.text).getD ""
        let stripped := strip_list_item_number s.text
        if s.verses ≠ "" then
          let r := md_list_aux rest (n + 1) false
          (pre ++ num ++ ". " ++ stripped ++ marker n ++ r.1, ⟨n, s.verses⟩ :: r.2)
        else
          let r := md_list_aux rest n false
          (pre ++ num ++ ". " ++ stripped ++ r.1, r.2)

/-- `format_enumerated_list` (`toml_to_markdown.py`, lines 126-155): intro text
from the non-list items, then the list items with the counter starting after
the intro footnotes; returns (intro text, list text, all footnotes). -/
def format_enumerated_list (sections : List Section) : String × String × List Footnote :=
  let intro := format_non_list_items sections
  let lst := md_list_aux sections (intro.2.length + 1) true
  (intro.1, lst.1, intro.2 ++ lst.2)

/-- `format_question` (`toml_to_markdown.py`, lines 176-197): heading, `A: `,
either intro+list blocks or the plain body, the footnote block, and the
separator. -/
def format_question (q : Question) : String :=
  let head := "# Q. " ++ q.id ++ ": " ++ q.question ++ "\n\n" ++ "A: "
  let body :=
    if should_format_as_enumerated_list q.sections then
      let r := format_enumerated_list q.sections
      (if r.1 ≠ "" then r.1 ++ "\n\n" else "")
        ++ (if r.2.1 ≠ "" then r.2.1 ++ "\n\n" else "")
    else
      (format_regular_sections q.sections).1 ++ "\n\n"
  let fns :=
    if should_format_as_enumerated_list q.sections then
      (format_enumerated_list q.sections).2.2
    else (format_regular_sections q.sections).2
  head ++ body ++ format_footnotes fns ++ "\n---\n\n"

/-- The footnote list a question's markdown rendering uses (the branch of
`format_question`). -/
def mdFootnotes (q : Question) : List Footnote :=
  if should_format_as_enumerated_list q.sections then
    (format_enumerated_list q.sections).2.2
  else (format_regular_sections q.sections).2

/-! ### Helpers from `shared.utils` (not under the given sources)

`answer/__init__.py` imports `escape_latex`, `detect_list_sections`,
`is_bracketed_list_item` and `strip_list_item_number` from `shared.utils`,
whose file is not part of the given sources.  They are modelled from the
spec. -/

/-- Modelled from the spec: `shared.utils.escape_latex` is not under the given
sources; spec section 4.4 requires escaping of backslash, `$`, `&`, `%`, `#`,
`_`, the braces, `~` and `^` for LaTeX targets.  Standard LaTeX escapes are
used for each. -/
def escape_char (c : Char) : List Char :=
  if c = '\\' then "\\textbackslash\x7b\x7d".data
  else if c = '$' then "\\$".data
  else if c = '&' then "\\&".data
  else if c = '%' then "\\%".data
  else if c = '#' then "\\#".data
  else if c = '_' then "\\_".data
  else if c = '\x7b' then "\\\x7b".data
  else if c = '\x7d' then "\\\x7d".data
  else if c = '~' then "\\textasciitilde\x7b\x7d".data
  else if c = '^' then "\\textasciicircum\x7b\x7d".data
  else [c]

/-- Modelled from the spec: character-wise LaTeX escaping (see
`escape_char`). -/
def escape_latex (s : String) : String :=
  String.mk ((s.data.map escape_char).flatten)

/-- Modelled from the spec: `shared.utils.is_bracketed_list_item` is not under
the given sources; spec section 4.2 describes a bracketed-list prefix pattern
with marker `[n]`.  Modelled as: text starts with `[`, one or more digits,
`]`. -/
def is_bracketed_list_item (text : String) : Bool :=
  match text.data with
  | '[' :: rest =>
      decide (rest.takeWhile Char.isDigit ≠ []) &&
        (match rest.dropWhile Char.isDigit with
          | ']' :: _ => true
          | _ => false)
  | _ => false

/-- Modelled from the spec: `shared.utils.strip_list_item_number` is not under
the given sources; spec section 4.4 says list items are stripped of their
leading number-and-period/bracket prefix.  Modelled as: strip an enumerated
prefix like the markdown variant; else strip a `[n]` prefix together with one
following whitespace character; else return the text unchanged. -/
def strip_list_item_number_shared (text : String) : String :=
  match enumMatch text.data with
  | some p => String.mk p.2
  | none =>
      if is_bracketed_list_item text then
        match text.data with
        | '[' :: rest =>
            (match rest.dropWhile Char.isDigit with
            | ']' :: c :: rest2 =>
                if c.isWhitespace then String.mk rest2 else String.mk (c :: rest2)
            | ']' :: [] => ""
            | _ => text)
        | _ => text
      else text

/-- `is_enumerated_list_item` or `is_bracketed_list_item`: the list-item test
of `process_list_answer` and `detect_list_sections`. -/
def isListItemText (text : String) : Bool :=
  is_enumerated_list_item text ∨ is_bracketed_list_item text

/-- A section with non-empty text that is a list item (the list partition of
`process_list_answer`). -/
def listSection (s : Section) : Bool :=
  decide (s.text ≠ "") && isListItemText s.text

/-- A section with non-empty text that is not a list item (the regular
partition of `process_list_answer`). -/
def regularSection (s : Section) : Bool :=
  decide (s.text ≠ "") && !isListItemText s.text

/-- Modelled from the spec: `shared.utils.detect_list_sections` is not under
the given sources; spec section 4.2 classifies as list when three or more
non-empty sections match the enumerated or bracketed prefix pattern. -/
def detect_list_sections (sections : List Section) : Bool :=
  3 ≤ (sections.filter listSection).length

/-! ### LaTeX answer processing (`answer/__init__.py`) -/

/-- Loop body of `process_regular_answer` (`answer/__init__.py`, lines 48-80):
like the markdown regular loop but with LaTeX escaping. -/
def pra_aux : List Section → Nat → String × List Footnote
  | [], _ => ("", [])
  | s :: rest, n =>
      if s.text = "" then pra_aux rest n
      else if s.verses ≠ "" then
        let r := pra_aux rest (n + 1)
        (escape_latex s.text ++ marker n ++ " " ++ r.1, ⟨n, s.verses⟩ :: r.2)
      else
        let r := pra_aux rest n
        (escape_latex s.text ++ " " ++ r.1, r.2)

/-- `process_regular_answer`: `"A: "` plus the loop from counter 1, final
`.strip()`. -/
def process_regular_answer (sections : List Section) : String × List Footnote :=
  let r := pra_aux sections 1
  (pyStrip ("A: " ++ r.1), r.2)

/-- List-item loop of `process_list_answer` (`answer/__init__.py`, lines
202-217): each list section becomes `\item` plus the escaped stripped text,
with a marker when verses are present. -/
def latex_list_aux : List Section → Nat → String × List Footnote
  | [], _ => ("", [])
  | s :: rest, n =>
      if s.verses ≠ "" then
        let r := latex_list_aux rest (n + 1)
        ("\\item " ++ escape_latex (strip_list_item_number_shared s.text) ++ marker n ++ "\n" ++ r.1,
          ⟨n, s.verses⟩ :: r.2)
      else
        let r := latex_list_aux rest n
        ("\\item " ++ escape_latex (strip_list_item_number_shared s.text) ++ "\n" ++ r.1, r.2)

/-- `process_list_answer` (`answer/__init__.py`, lines 165-226): partition the
non-empty sections into list items and regular sections (order preserved),
process the regular ones with `process_regular_answer`, then the list items in
an `enumerate` environment with the footnote counter carried on. -/
def process_list_answer (sections : List Section) : String × List Footnote :=
  let list_sections := sections.filter listSection
  let regular_sections := sections.filter regularSection
  let intro := process_regular_answer regular_sections
  if list_sections = [] then intro
  else
    let introText := if intro.1 ≠ "" then intro.1 ++ "\n\n" else intro.1
    let lst := latex_list_aux list_sections (intro.2.length + 1)
    (introText ++ "\\begin\x7benumerate\x7d\n" ++ lst.1 ++ "\\end\x7benumerate\x7d",
      intro.2 ++ lst.2)

/-- The marker phrase of `process_hierarchical_answer`. -/
def sinsMarker : String := "Sins become more harmful:"

/-- Python `marker in text` via `splitOn`: at least two parts means the marker
occurs. -/
def containsMarker (text : String) : Bool :=
  containsSubList sinsMarker.data text.data

/-- Prefix of `text` up to and including the first marker occurrence:
`text.split(marker)[0] + marker`. -/
def introOf (text : String) : String :=
  String.mk (takeUntilSub sinsMarker.data text.data) ++ sinsMarker

/-- Marker scan of `process_hierarchical_answer` (`answer/__init__.py`, lines
104-114): find the first section with non-empty text containing the marker;
return the extracted intro and the section list with that section's text
replaced by `text.replace(intro, "").strip()` (Python mutates in place; the
updated list models the mutated state). -/
def stripIntroScan : List Section → Option String × List Section
  | [] => (none, [])
  | s :: rest =>
      if s.text ≠ "" ∧ containsMarker s.text then
        (some (introOf s.text),
          ⟨pyStrip (String.mk (replaceSubList (introOf s.text).data [] s.text.data)),
            s.verses⟩ :: rest)
      else
        let r := stripIntroScan rest
        (r.1, s :: r.2)

/-- Lookahead of `process_hierarchical_answer` (lines 150-157): scan forward;
the first section with non-empty text decides — a separator is inserted
exactly when it matches the `From` pattern. -/
def hierNextComing : List Section → Bool
  | [] => false
  | s :: rest => if s.text = "" then hierNextComing rest else (hierMatch s.text.data).isSome

/-- Main loop of `process_hierarchical_answer` (lines 121-160): skip empty
text; a `From` match emits `f"{num}. {rest}"`, otherwise the escaped text;
then the footnote marker (with trailing space) or a single space; then a
paragraph break when the next non-empty section is a `From` match. -/
def hier_aux : List Section → Nat → String × List Footnote
  | [], _ => ("", [])
  | s :: rest, n =>
      if s.text = "" then hier_aux rest n
      else
        let piece :=
          match hierMatch s.text.data with
          | some p => toString p.1 ++ ". " ++ String.mk p.2
          | none => if escape_latex s.text = "" then "" else escape_latex s.text
        let sep := if hierNextComing rest then "\n\n" else ""
        if s.verses ≠ "" then
          let r := hier_aux rest (n + 1)
          (piece ++ marker n ++ " " ++ sep ++ r.1, ⟨n, s.verses⟩ :: r.2)
        else
          let r := hier_aux rest n
          (piece ++ " " ++ sep ++ r.1, r.2)

/-- `process_hierarchical_answer` (`answer/__init__.py`, lines 83-162): marker
scan (mutating one section), optional intro paragraph, main loop from counter
1, final `.strip()`.  The third component is the section list after the
in-place mutation. -/
def process_hierarchical_answer (sections : List Section) :
    String × List Footnote × List Section :=
  let scan := stripIntroScan sections
  let head := "A: " ++ (match scan.1 with | some t => t ++ "\n\n" | none => "")
  let body := hier_aux scan.2 1
  (pyStrip (head ++ body.1), body.2, scan.2)

/-- `process_answer` (`answer/__init__.py`, lines 28-45): hierarchical first,
then list, then regular.  The third component is the question's section list
after the call (only the hierarchical path can change it). -/
def process_answer (q : Question) : String × List Footnote × List Section :=
  if detect_hierarchical_answer q.sections then
    process_hierarchical_answer q.sections
  else if detect_list_sections q.sections then
    let r := process_list_answer q.sections
    (r.1, r.2, q.sections)
  else
    let r := process_regular_answer q.sections
    (r.1, r.2, q.sections)

/-- The three-way classification taken by `process_answer` (LaTeX family). -/
inductive AnswerMode | hierarchical | list | plain
deriving DecidableEq, Repr

/-- The mode `process_answer` selects for a section list. -/
def answerMode (sections : List Section) : AnswerMode :=
  if detect_hierarchical_answer sections then .hierarchical
  else if detect_list_sections sections then .list
  else .plain

/-- The mode structure of the markdown renderer: `format_question`
(`toml_to_markdown.py`, lines 176-197) branches only on
`should_format_as_enumerated_list` — it has no hierarchical case. -/
def mdAnswerMode (sections : List Section) : AnswerMode :=
  if should_format_as_enumerated_list sections then .list else .plain

/-! ### Loading (`load_toml_file` / `parse_question_data` in both scripts)

The parsed TOML value is modelled as an AST; the I/O and parse step is
modelled by its outcome, an `Except` value (`.error` when `open`/`toml.load`
raised). -/

/-- One raw section table: `section_data.get('text', '')` /
`section_data.get('verses', '')` read optional keys. -/
structure RawSection where
  rawText : Option String
  rawVerses : Option String
deriving DecidableEq, Repr

/-- One raw question record: optional `id` and `question` keys (`'id' in
data` tests presence), and the `sections` array (`data.get('sections', []`)
defaults to empty). -/
structure RawRecord where
  rawId : Option String
  rawQuestion : Option String
  rawSections : List RawSection
deriving DecidableEq, Repr

/-- The shape of a parsed TOML file: a single question table, a list of
records, or anything else. -/
inductive TomlData
  | single : RawRecord → TomlData
  | multi : List RawRecord → TomlData
  | other : TomlData
deriving Repr

/-- `parse_question_data` (both scripts): fields default to `''` and the
section texts and verses are `.strip()`ed (modelled by `String.trim`). -/
def parse_question_data (r : RawRecord) : Question :=
  { id := r.rawId.getD ""
    question := r.rawQuestion.getD ""
    sections := r.rawSections.map fun s =>
      ⟨pyStrip (s.rawText.getD ""), pyStrip (s.rawVerses.getD "")⟩ }

/-- Record filter of `load_toml_file`: `'id' in data and 'question' in data`. -/
def keepRecord (r : RawRecord) : Bool :=
  r.rawId.isSome && r.rawQuestion.isSome

/-- Loop of the multi-record branch of `load_toml_file`: append the parse of
every record that has both keys, in file order. -/
def loadRecords : List RawRecord → List Question
  | [] => []
  | r :: rest =>
      if keepRecord r then parse_question_data r :: loadRecords rest
      else loadRecords rest

/-- `load_toml_file` (`toml_to_markdown.py`, lines 32-51, and the
`isinstance`-guarded variant in `toml_to_latex.py`, lines 19-38): on an
exception the error is printed and `[]` returned; otherwise single records are
kept when both keys are present and record lists are filtered. -/
def load_toml_file : Except String TomlData → List Question
  | .error _ => []
  | .ok (.single r) => if keepRecord r then [parse_question_data r] else []
  | .ok (.multi rs) => loadRecords rs
  | .ok .other => []

/-- The per-file loop of `process_files` (both scripts), restricted to the
loading part: every file's questions in order (the scripts then insert them
into a dict keyed by id). -/
def loadAllFiles : List (Except String TomlData) → List Question
  | [] => []
  | f :: rest => load_toml_file f ++ loadAllFiles rest

/-! ### Sorting (`sort_questions` in `toml_to_markdown.py`, lines 203-209, and
the inline `sorted(..., key=lambda x: float(x[0]) if
x[0].replace('.', '', 1).isdigit() else x[0])` of `generate_latex` in
`toml_to_latex.py`, line 148)

The key is `float(q_id)` when `q_id.replace('.', '', 1).isdigit()`, else the
string itself.  `sorted` compares keys with `<`; comparing a `float` key with
a `str` key raises `TypeError` in Python 3, modelled by `Except.error`.
Decimal values are modelled exactly in `ℚ` (the ids in play are far below any
`float` rounding). -/

/-- `q_id.replace('.', '', 1).isdigit()`: remove the first `'.'` (if any) and
test for a non-empty all-digit string. -/
def pyIsNumericId (s : String) : Bool :=
  decide ((s.data.erase '.').all Char.isDigit) && decide (s.data.erase '.' ≠ [])

/-- Digits of the integer part of a numeric id. -/
def intDigits (s : String) : List Char := s.data.takeWhile (· ≠ '.')

/-- Digits of the fractional part of a numeric id. -/
def fracDigits (s : String) : List Char := (s.data.dropWhile (· ≠ '.')).drop 1

/-- Mantissa of the decimal value of `float(q_id)`: the id's digits read as
one integer. -/
def decNum (s : String) : Nat :=
  natOfDigits (intDigits s) * 10 ^ (fracDigits s).length + natOfDigits (fracDigits s)

/-- Scale of the decimal value: number of fractional digits. -/
def decScale (s : String) : Nat := (fracDigits s).length

/-- Number of binary digits of a natural number; the first argument is fuel
making the halving recursion structural (callers pass fuel above the bit
length). -/
def bitLenFuel : Nat → Nat → Nat
  | 0, _ => 0
  | fuel + 1, n => if n = 0 then 0 else bitLenFuel fuel (n / 2) + 1

/-- Binary exponent `E` of the positive fraction `num / den`, so that
`2 ^ E ≤ num / den < 2 ^ (E + 1)`: estimated from the bit lengths and then
corrected by one exact integer comparison. -/
def decExponent (num den fuel : Nat) : Int :=
  let b : Int := (bitLenFuel fuel num : Int) - (bitLenFuel fuel den : Int)
  if 0 ≤ b then
    (if den * 2 ^ b.toNat ≤ num then b else b - 1)
  else
    (if den ≤ num * 2 ^ (-b).toNat then b else b - 1)

/-- Round the fraction `num / den` to an IEEE-754 double: 53 significant
bits, round to nearest, ties to even.  The result `(q, e)` denotes the value
`q * 2 ^ e` with `2 ^ 52 ≤ q < 2 ^ 53` (for `num ≠ 0`); computed with exact
integer arithmetic.  Exponent overflow to infinity (decimal values at or
above roughly `1.8e308`) and subnormal underflow are outside the model — the
catechism ids are nowhere near either extreme. -/
def roundToDouble (num den fuel : Nat) : Nat × Int :=
  if num = 0 then (0, 0) else
  let e : Int := decExponent num den fuel - 52
  let p : Nat × Nat × Nat :=
    if 0 ≤ e then
      let D := den * 2 ^ e.toNat
      (num / D, num % D, D)
    else
      let N := num * 2 ^ (-e).toNat
      (N / den, N % den, den)
  let q :=
    if 2 * p.2.1 > p.2.2 ∨ (2 * p.2.1 = p.2.2 ∧ p.1 % 2 = 1) then p.1 + 1 else p.1
  if q = 2 ^ 53 then (2 ^ 52, e + 1) else (q, e)

/-- Python `float(q_id)` for an id accepted by `pyIsNumericId`: the double
nearest to the decimal value `decNum s / 10 ^ decScale s` (ties to even). -/
def floatOfId (s : String) : Nat × Int :=
  roundToDouble (decNum s) (10 ^ decScale s) (4 * s.data.length + 64)

/-- The exact rational value of the double `(q, e)`. -/
def dblVal (q : Nat) (e : Int) : ℚ := (q : ℚ) * (2 : ℚ) ^ e

/-- The exact rational value of `float(q_id)`. -/
def floatValQ (s : String) : ℚ := dblVal (floatOfId s).1 (floatOfId s).2

/-- Python `<` on two doubles `(q1, e1)`, `(q2, e2)`: exact comparison of
`q1 * 2 ^ e1` and `q2 * 2 ^ e2` by shifting to a common exponent. -/
def dblLt (q1 : Nat) (e1 : Int) (q2 : Nat) (e2 : Int) : Bool :=
  if e1 ≤ e2 then q1 < q2 * 2 ^ (e2 - e1).toNat
  else q1 * 2 ^ (e1 - e2).toNat < q2

/-- The sort key: the double `float(q_id)` for numeric-looking ids, the
string otherwise. -/
inductive PyKey
  | num : Nat → Int → PyKey
  | str : String → PyKey
deriving DecidableEq, Repr

/-- `sort_key` of `sort_questions`. -/
def sortKey (s : String) : PyKey :=
  if pyIsNumericId s then .num (floatOfId s).1 (floatOfId s).2 else .str s

/-- Python `<` on two keys: defined within a type (double comparison, or
lexicographic string comparison), `TypeError` across the `float`/`str`
divide. -/
def pyKeyLt : PyKey → PyKey → Except Unit Bool
  | .num q1 e1, .num q2 e2 => .ok (dblLt q1 e1 q2 e2)
  | .str a, .str b => .ok (decide (a < b))
  | _, _ => .error ()

/-- Stable insertion of one id into an already sorted run: the element is
placed before the first `y` that is not strictly below it (`sorted` is
stable, so an earlier element precedes later elements with an equal key).
The first raising comparison aborts the sort, as `sorted` does. -/
def pyInsert (x : String) : List String → Except Unit (List String)
  | [] => .ok [x]
  | y :: ys =>
      match pyKeyLt (sortKey y) (sortKey x) with
      | .error e => .error e
      | .ok false => .ok (x :: y :: ys)
      | .ok true =>
          match pyInsert x ys with
          | .error e => .error e
          | .ok zs => .ok (y :: zs)

/-- The comparison-based sort of `sort_questions`, modelled as a stable
insertion sort over the ids (any stable comparison sort yields this result,
and a float/str comparison raises). -/
def pySortIds : List String → Except Unit (List String)
  | [] => .ok []
  | x :: xs =>
      match pySortIds xs with
      | .error e => .error e
      | .ok l => pyInsert x l

/-! ### Statement-side definitions -/

/-- The URL encoding the spec describes: every space to `+`, `:` to `%3A`,
`;` to `%3B`, `,` to `%2C`, simultaneously and character-wise. -/
def urlEncodeChar (c : Char) : List Char :=
  if c = ' ' then "+".data
  else if c = ':' then "%3A".data
  else if c = ';' then "%3B".data
  else if c = ',' then "%2C".data
  else [c]

/-- Character-wise URL encoding of a verse string (spec wording). -/
def urlEncode (s : String) : String :=
  String.mk ((s.data.map urlEncodeChar).flatten)

/-- A string free of the `'|'` character.  A (multi-column) Markdown table
needs `'|'` cell separators, so a pipe-free rendering contains no table. -/
abbrev pipeFree (s : String) : Prop := '|' ∉ s.data

/-- Concatenation of a list of strings. -/
def joinStrings : List String → String
  | [] => ""
  | a :: l => a ++ joinStrings l

/-- A section with non-empty text that is an enumerated list item (the
markdown list partition). -/
def enumSection (s : Section) : Bool :=
  decide (s.text ≠ "") && is_enumerated_list_item s.text

/-- Assignment of footnote numbers to a run of sections: a section with
verses takes the next counter value, one without takes none. -/
def assignNums : List Section → Nat → List (Section × Option Nat)
  | [], _ => []
  | s :: rest, n =>
      if s.verses ≠ "" then (s, some n) :: assignNums rest (n + 1)
      else (s, none) :: assignNums rest n

/-- One markdown list item as emitted by `format_enumerated_list`: the source
number re-emitted, the stripped text, and the footnote marker when a number
is assigned. -/
def mdItemLineFn (s : Section) (n : Option Nat) : String :=
  (get_list_item_number s.text).getD "" ++ ". " ++ strip_list_item_number s.text
    ++ (match n with | some k => marker k | none => "")

/-- One LaTeX list item as emitted by `process_list_answer`: an `\item` with
the stripped escaped text and the footnote marker when a number is assigned —
the item's own number is left to the `enumerate` environment. -/
def latexItemLineFn (s : Section) (n : Option Nat) : String :=
  "\\item " ++ escape_latex (strip_list_item_number_shared s.text)
    ++ (match n with | some k => marker k | none => "") ++ "\n"

/-- The per-position footnote invariant: the footnote at 0-based position `i`
carries number `i + 1` and a non-empty verses string. -/
def FootnoteInv (fns : List Footnote) : Prop :=
  ∀ i, i < fns.length →
    (fns.getD i ⟨0, ""⟩).number = i + 1 ∧ (fns.getD i ⟨0, ""⟩).verses ≠ ""

/-- A section with non-empty text and non-empty verses: exactly the sections
that allocate a footnote in the plain (and hierarchical) loops. -/
def hasRenderableVerses (s : Section) : Bool :=
  decide (s.text ≠ "") && decide (s.verses ≠ "")

/-- Footnote-allocating sections of the markdown intro partition. -/
def nonListRenderable (s : Section) : Bool :=
  decide (s.text ≠ "") && !is_enumerated_list_item s.text && decide (s.verses ≠ "")

/-- Footnote-allocating sections of the markdown list partition. -/
def listRenderable (s : Section) : Bool :=
  decide (s.text ≠ "") && is_enumerated_list_item s.text && decide (s.verses ≠ "")

/-- Footnote-allocating sections of the LaTeX intro partition. -/
def latexIntroRenderable (s : Section) : Bool :=
  decide (s.text ≠ "") && !isListItemText s.text && decide (s.verses ≠ "")

/-- Footnote-allocating sections of the LaTeX list partition. -/
def latexListRenderable (s : Section) : Bool :=
  decide (s.text ≠ "") && isListItemText s.text && decide (s.verses ≠ "")

/-! ### Concrete inputs used by counterexamples and witnesses -/

/-- The spec's round-trip scenario sections. -/
def exPlain : List Section := [⟨"God is love.", "1 John 4:8"⟩, ⟨"He is just.", ""⟩]

/-- A question with an empty-text section that carries verses. -/
def exEmptyText : Question :=
  ⟨"1", "Q?", [⟨"", "Gen 1:1"⟩, ⟨"Hi", "John 3:16"⟩]⟩

/-- Three sections matching the hierarchical `From` pattern. -/
def exFrom3 : List Section :=
  [⟨"1. From a", ""⟩, ⟨"2. From b", ""⟩, ⟨"3. From c", ""⟩]

/-- Exactly two enumerated sections. -/
def exEnum2 : List Section := [⟨"1. a", ""⟩, ⟨"2. b", ""⟩]

/-- Exactly three enumerated sections. -/
def exEnum3 : List Section := [⟨"1. a", ""⟩, ⟨"2. b", ""⟩, ⟨"3. c", ""⟩]

/-- The spec's list scenario sections. -/
def exReasons : List Section :=
  [⟨"1. First reason.", ""⟩, ⟨"2. Second reason.", ""⟩, ⟨"3. Third reason.", ""⟩]

/-- A list-mode section sequence with interleaved verse-bearing items. -/
def exMixedVerses : List Section :=
  [⟨"Intro text.", "Rom 1:1"⟩, ⟨"1. First.", "Gen 1:1"⟩,
   ⟨"2. Second.", ""⟩, ⟨"3. Third.", "Ex 2:2"⟩]

/-- Enumerated sections whose source numbers are not 1, 2, 3. -/
def exOddNums : List Section := [⟨"2. A", ""⟩, ⟨"5. B", ""⟩, ⟨"9. C", ""⟩]

/-- A question with seven sections, each carrying one verse reference. -/
def exSeven : Question :=
  ⟨"7", "Seven?",
    [⟨"T1", "Gen 1:1"⟩, ⟨"T2", "Gen 1:2"⟩, ⟨"T3", "Gen 1:3"⟩, ⟨"T4", "Gen 1:4"⟩,
     ⟨"T5", "Gen 1:5"⟩, ⟨"T6", "Gen 1:6"⟩, ⟨"T7", "Gen 1:7"⟩]⟩

/-- A hierarchical question whose first section contains the marker phrase. -/
def exMarker : Question :=
  ⟨"151", "Agg?",
    [⟨"Intro here. Sins become more harmful: tail text", "Gen 1:1"⟩,
     ⟨"1. From a", ""⟩, ⟨"2. From b", ""⟩, ⟨"3. From c", ""⟩]⟩

/-- Raw records for the loading scenarios: one missing `question`, one
complete with padded fields. -/
def exRawRecords : List RawRecord :=
  [⟨some "1", none, []⟩,
   ⟨some "2", some "Q2", [⟨some "  hi  ", some " Gen 1:1 "⟩]⟩]

/-! ## Footnote allocation lemmas -/

/-- Footnote numbers, count and non-emptiness produced by the
`format_regular_sections` loop, for an arbitrary starting counter. -/
theorem format_regular_aux_spec (l : List Section) (n : Nat) :
    ((format_regular_aux l n).2.map Footnote.number
        = List.range' n (format_regular_aux l n).2.length)
    ∧ ((format_regular_aux l n).2.length = (l.filter hasRenderableVerses).length)
    ∧ ∀ f ∈ (format_regular_aux l n).2, f.verses ≠ "" := by
  induction l generalizing n with
  | nil => simp [format_regular_aux]
  | cons s rest ih =>
      by_cases ht : s.text = ""
      · have hp : hasRenderableVerses s = false := by simp [hasRenderableVerses, ht]
        simpa [format_regular_aux, ht, List.filter_cons, hp] using ih n
      · by_cases hv : s.verses = ""
        · have hp : hasRenderableVerses s = false := by simp [hasRenderableVerses, hv]
          obtain ⟨h1, h2, h3⟩ := ih n
          refine ⟨?_, ?_, ?_⟩ <;>
            simp [format_regular_aux, ht, hv, List.filter_cons, hp, h1, h2]
          exact h3
        · have hp : hasRenderableVerses s = true := by simp [hasRenderableVerses, ht, hv]
          obtain ⟨h1, h2, h3⟩ := ih (n + 1)
          refine ⟨?_, ?_, ?_⟩
          · simp [format_regular_aux, ht, hv, h1, List.range']
          · simp [format_regular_aux, ht, hv, List.filter_cons, hp, h2]
          · intro f hf
            simp [format_regular_aux, ht, hv] at hf
            rcases hf with h | h
            · simp [h, hv]
            · exact h3 f h

/-- Same for the `format_non_list_items` loop (skips enumerated items). -/
theorem format_non_list_aux_spec (l : List Section) (n : Nat) :
    ((format_non_list_aux l n).2.map Footnote.number
        = List.range' n (format_non_list_aux l n).2.length)
    ∧ ((format_non_list_aux l n).2.length = (l.filter nonListRenderable).length)
    ∧ ∀ f ∈ (format_non_list_aux l n).2, f.verses ≠ "" := by
  induction l generalizing n with
  | nil => simp [format_non_list_aux]
  | cons s rest ih =>
      by_cases ht : s.text = ""
      · have hp : nonListRenderable s = false := by simp [nonListRenderable, ht]
        simpa [format_non_list_aux, ht, List.filter_cons, hp] using ih n
      · by_cases he : is_enumerated_list_item s.text
        · have hp : nonListRenderable s = false := by simp [nonListRenderable, he]
          simpa [format_non_list_aux, ht, he, List.filter_cons, hp] using ih n
        · by_cases hv : s.verses = ""
          · have hp : nonListRenderable s = false := by simp [nonListRenderable, hv]
            obtain ⟨h1, h2, h3⟩ := ih n
            refine ⟨?_, ?_, ?_⟩ <;>
              simp [format_non_list_aux, ht, he, hv, List.filter_cons, hp, h1, h2]
            exact h3
          · have hp : nonListRenderable s = true := by
              simp [nonListRenderable, ht, he, hv]
            obtain ⟨h1, h2, h3⟩ := ih (n + 1)
            refine ⟨?_, ?_, ?_⟩
            · simp [format_non_list_aux, ht, he, hv, h1, List.range']
            · simp [format_non_list_aux, ht, he, hv, List.filter_cons, hp, h2]
            · intro f hf
              simp [format_non_list_aux, ht, he, hv] at hf
              rcases hf with h | h
              · simp [h, hv]
              · exact h3 f h

/-- Same for the list-item loop of `format_enumerated_list` (keeps only
enumerated items; the `first` flag only affects the emitted text). -/
theorem md_list_aux_spec (l : List Section) (n : Nat) (first : Bool) :
    ((md_list_aux l n first).2.map Footnote.number
        = List.range' n (md_list_aux l n first).2.length)
    ∧ ((md_list_aux l n first).2.length = (l.filter listRenderable).length)
    ∧ ∀ f ∈ (md_list_aux l n first).2, f.verses ≠ "" := by
  induction l generalizing n first with
  | nil => simp [md_list_aux]
  | cons s rest ih =>
      by_cases ht : s.text = ""
      · have hp : listRenderable s = false := by simp [listRenderable, ht]
        simpa [md_list_aux, ht, List.filter_cons, hp] using ih n first
      · by_cases he : is_enumerated_list_item s.text
        · by_cases hv : s.verses = ""
          · have hp : listRenderable s = false := by simp [listRenderable, hv]
            obtain ⟨h1, h2, h3⟩ := ih n false
            refine ⟨?_, ?_, ?_⟩ <;>
              simp [md_list_aux, ht, he, hv, List.filter_cons, hp, h1, h2]
            exact h3
          · have hp : listRenderable s = true := by simp [listRenderable, ht, he, hv]
            obtain ⟨h1, h2, h3⟩ := ih (n + 1) false
            refine ⟨?_, ?_, ?_⟩
            · simp [md_list_aux, ht, he, hv, h1, List.range']
            · simp [md_list_aux, ht, he, hv, List.filter_cons, hp, h2]
            · intro f hf
              simp [md_list_aux, ht, he, hv] at hf
              rcases hf with h | h
              · simp [h, hv]
              · exact h3 f h
        · have hp : listRenderable s = false := by simp [listRenderable, he]
          simpa [md_list_aux, ht, he, List.filter_cons, hp] using ih n first

/-- Same for the `process_regular_answer` loop. -/
theorem pra_aux_spec (l : List Section) (n : Nat) :
    ((pra_aux l n).2.map Footnote.number = List.range' n (pra_aux l n).2.length)
    ∧ ((pra_aux l n).2.length = (l.filter hasRenderableVerses).length)
    ∧ ∀ f ∈ (pra_aux l n).2, f.verses ≠ "" := by
  induction l generalizing n with
  | nil => simp [pra_aux]
  | cons s rest ih =>
      by_cases ht : s.text = ""
      · have hp : hasRenderableVerses s = false := by simp [hasRenderableVerses, ht]
        simpa [pra_aux, ht, List.filter_cons, hp] using ih n
      · by_cases hv : s.verses = ""
        · have hp : hasRenderableVerses s = false := by simp [hasRenderableVerses, hv]
          obtain ⟨h1, h2, h3⟩ := ih n
          refine ⟨?_, ?_, ?_⟩ <;>
            simp [pra_aux, ht, hv, List.filter_cons, hp, h1, h2]
          exact h3
        · have hp : hasRenderableVerses s = true := by simp [hasRenderableVerses, ht, hv]
          obtain ⟨h1, h2, h3⟩ := ih (n + 1)
          refine ⟨?_, ?_, ?_⟩
          · simp [pra_aux, ht, hv, h1, List.range']
          · simp [pra_aux, ht, hv, List.filter_cons, hp, h2]
          · intro f hf
            simp [pra_aux, ht, hv] at hf
            rcases hf with h | h
            · simp [h, hv]
            · exact h3 f h

/-- Same for the list-item loop of `process_list_answer` (which receives the
already-filtered list sections and skips nothing). -/
theorem latex_list_aux_spec (l : List Section) (n : Nat) :
    ((latex_list_aux l n).2.map Footnote.number
        = List.range' n (latex_list_aux l n).2.length)
    ∧ ((latex_list_aux l n).2.length
        = (l.filter fun s => decide (s.verses ≠ "")).length)
    ∧ ∀ f ∈ (latex_list_aux l n).2, f.verses ≠ "" := by
  induction l generalizing n with
  | nil => simp [latex_list_aux]
  | cons s rest ih =>
      by_cases hv : s.verses = ""
      · obtain ⟨h1, h2, h3⟩ := ih n
        refine ⟨?_, ?_, ?_⟩ <;> simp [latex_list_aux, hv, List.filter_cons, h1, h2]
        exact h3
      · obtain ⟨h1, h2, h3⟩ := ih (n + 1)
        refine ⟨?_, ?_, ?_⟩
        · simp [latex_list_aux, hv, h1, List.range']
        · simp [latex_list_aux, hv, List.filter_cons, h2]
        · intro f hf
          simp [latex_list_aux, hv] at hf
          rcases hf with h | h
          · simp [h, hv]
          · exact h3 f h

/-- Same for the main loop of `process_hierarchical_answer` (the count is not
needed there). -/
theorem hier_aux_spec (l : List Section) (n : Nat) :
    ((hier_aux l n).2.map Footnote.number = List.range' n (hier_aux l n).2.length)
    ∧ ∀ f ∈ (hier_aux l n).2, f.verses ≠ "" := by
  induction l generalizing n with
  | nil => simp [hier_aux]
  | cons s rest ih =>
      by_cases ht : s.text = ""
      · simpa [hier_aux, ht] using ih n
      · by_cases hv : s.verses = ""
        · obtain ⟨h1, h3⟩ := ih n
          refine ⟨?_, ?_⟩ <;> simp [hier_aux, ht, hv, h1]
          exact h3
        · obtain ⟨h1, h3⟩ := ih (n + 1)
          refine ⟨?_, ?_⟩
          · simp [hier_aux, ht, hv, h1, List.range']
          · intro f hf
            simp [hier_aux, ht, hv] at hf
            rcases hf with h | h
            · simp [h, hv]
            · exact h3 f h

/-- A footnote list whose numbers are `range' n` has `n + i` at position
`i`. -/
theorem footnote_numbered_getD (fns : List Footnote) (n : Nat)
    (hmap : fns.map Footnote.number = List.range' n fns.length) :
    ∀ i, i < fns.length → (fns.getD i ⟨0, ""⟩).number = n + i := by
  induction fns generalizing n with
  | nil => intro i hi; simp at hi
  | cons f rest ih =>
      intro i hi
      simp [List.range'] at hmap
      match i with
      | 0 => simpa using hmap.1
      | Nat.succ j =>
          have hj : j < rest.length := by simpa using hi
          have hrec := ih (n + 1) hmap.2 j hj
          rw [List.getD_cons_succ, hrec]
          omega

/-- `FootnoteInv` follows from numbering by `range' 1` plus non-empty
verses. -/
theorem footnoteInv_of (fns : List Footnote)
    (hmap : fns.map Footnote.number = List.range' 1 fns.length)
    (hv : ∀ f ∈ fns, f.verses ≠ "") : FootnoteInv fns := by
  intro i hi
  refine ⟨by simpa [Nat.add_comm] using footnote_numbered_getD fns 1 hmap i hi, ?_⟩
  refine hv _ ?_
  rw [List.getD_eq_getElem _ _ hi]
  exact List.getElem_mem hi

/-- Splitting the renderable-verse count by the enumerated-item test. -/
theorem md_count_split (l : List Section) :
    (l.filter nonListRenderable).length + (l.filter listRenderable).length
      = (l.filter hasRenderableVerses).length := by
  induction l with
  | nil => simp
  | cons s rest ih =>
      by_cases ht : s.text = "" <;> by_cases he : is_enumerated_list_item s.text <;>
        by_cases hv : s.verses = "" <;>
        simp [List.filter_cons, nonListRenderable, listRenderable, hasRenderableVerses,
          ht, he, hv] <;>
        omega

/-- Splitting the renderable-verse count by the list-item test of the LaTeX
family. -/
theorem latex_count_split (l : List Section) :
    (l.filter latexIntroRenderable).length + (l.filter latexListRenderable).length
      = (l.filter hasRenderableVerses).length := by
  induction l with
  | nil => simp
  | cons s rest ih =>
      by_cases ht : s.text = "" <;> by_cases he : isListItemText s.text <;>
        by_cases hv : s.verses = "" <;>
        simp [List.filter_cons, latexIntroRenderable, latexListRenderable,
          hasRenderableVerses, ht, he, hv] <;>
        omega

/-- The footnotes of `format_enumerated_list`: numbered `1..k` where `k`
counts the sections with non-empty text and non-empty verses. -/
theorem format_enumerated_list_fns_spec (l : List Section) :
    ((format_enumerated_list l).2.2.map Footnote.number
        = List.range' 1 (format_enumerated_list l).2.2.length)
    ∧ ((format_enumerated_list l).2.2.length = (l.filter hasRenderableVerses).length)
    ∧ ∀ f ∈ (format_enumerated_list l).2.2, f.verses ≠ "" := by
  obtain ⟨i1, i2, i3⟩ := format_non_list_aux_spec l 1
  obtain ⟨l1, l2, l3⟩ := md_list_aux_spec l ((format_non_list_aux l 1).2.length + 1) true
  have hfns : (format_enumerated_list l).2.2
      = (format_non_list_aux l 1).2
        ++ (md_list_aux l ((format_non_list_aux l 1).2.length + 1) true).2 := by
    simp [format_enumerated_list, format_non_list_items]
  refine ⟨?_, ?_, ?_⟩
  · rw [hfns, List.map_append, i1, l1, List.length_append]
    have h := List.range'_append_1 1 (format_non_list_aux l 1).2.length
      (md_list_aux l ((format_non_list_aux l 1).2.length + 1) true).2.length
    rw [Nat.add_comm 1 (format_non_list_aux l 1).2.length] at h
    rw [h, Nat.add_comm (md_list_aux l ((format_non_list_aux l 1).2.length + 1) true).2.length]
  · rw [hfns, List.length_append, l2, i2, md_count_split]
  · rw [hfns]
    intro f hf
    rcases List.mem_append.mp hf with h | h
    · exact i3 f h
    · exact l3 f h

/-- The intro partition's renderable sections, expressed over the original
list. -/
theorem filter_regular_has (l : List Section) :
    (l.filter regularSection).filter hasRenderableVerses
      = l.filter latexIntroRenderable := by
  rw [List.filter_filter]
  refine List.filter_congr ?_
  intro s _
  by_cases ht : s.text = "" <;> by_cases he : isListItemText s.text <;>
    by_cases hv : s.verses = "" <;>
    simp [regularSection, hasRenderableVerses, latexIntroRenderable, ht, he, hv]

/-- The list partition's renderable sections, expressed over the original
list. -/
theorem filter_list_verses (l : List Section) :
    (l.filter listSection).filter (fun s => decide (s.verses ≠ ""))
      = l.filter latexListRenderable := by
  rw [List.filter_filter]
  refine List.filter_congr ?_
  intro s _
  by_cases ht : s.text = "" <;> by_cases he : isListItemText s.text <;>
    by_cases hv : s.verses = "" <;>
    simp [listSection, latexListRenderable, ht, he, hv]

/-- The footnotes of `process_list_answer`: numbered `1..k` where `k` counts
the sections with non-empty text and non-empty verses. -/
theorem process_list_answer_fns_spec (l : List Section) :
    ((process_list_answer l).2.map Footnote.number
        = List.range' 1 (process_list_answer l).2.length)
    ∧ ((process_list_answer l).2.length = (l.filter hasRenderableVerses).length)
    ∧ ∀ f ∈ (process_list_answer l).2, f.verses ≠ "" := by
  obtain ⟨i1, i2, i3⟩ := pra_aux_spec (l.filter regularSection) 1
  rw [show (l.filter regularSection).filter hasRenderableVerses
        = l.filter latexIntroRenderable from filter_regular_has l] at i2
  by_cases hnil : l.filter listSection = []
  · have hlist : (l.filter latexListRenderable).length = 0 := by
      rw [← filter_list_verses, hnil]
      rfl
    have hfns : (process_list_answer l).2 = (pra_aux (l.filter regularSection) 1).2 := by
      simp [process_list_answer, hnil, process_regular_answer]
    rw [hfns]
    refine ⟨i1, ?_, i3⟩
    rw [i2]
    have := latex_count_split l
    omega
  · set reg := l.filter regularSection with hregdef
    set lst := l.filter listSection with hlstdef
    have hfns : (process_list_answer l).2
        = (pra_aux reg 1).2 ++ (latex_list_aux lst ((pra_aux reg 1).2.length + 1)).2 := by
      simp [process_list_answer, hnil, process_regular_answer]
    obtain ⟨j1, j2, j3⟩ := latex_list_aux_spec lst ((pra_aux reg 1).2.length + 1)
    refine ⟨?_, ?_, ?_⟩
    · rw [hfns, List.map_append, i1, j1, List.length_append]
      have h := List.range'_append_1 1 (pra_aux reg 1).2.length
        (latex_list_aux lst ((pra_aux reg 1).2.length + 1)).2.length
      rw [Nat.add_comm 1 (pra_aux reg 1).2.length] at h
      rw [h, Nat.add_comm (latex_list_aux lst ((pra_aux reg 1).2.length + 1)).2.length]
    · rw [hfns, List.length_append, j2, hlstdef,
        show (l.filter listSection).filter (fun s => decide (s.verses ≠ ""))
          = l.filter latexListRenderable from filter_list_verses l,
        i2, latex_count_split]
    · rw [hfns]
      intro f hf
      rcases List.mem_append.mp hf with h | h
      · exact i3 f h
      · exact j3 f h

/-- The footnotes of `process_hierarchical_answer` are numbered from 1 with
non-empty verses. -/
theorem process_hierarchical_answer_fns_spec (l : List Section) :
    ((process_hierarchical_answer l).2.1.map Footnote.number
        = List.range' 1 (process_hierarchical_answer l).2.1.length)
    ∧ ∀ f ∈ (process_hierarchical_answer l).2.1, f.verses ≠ "" := by
  have h : (process_hierarchical_answer l).2.1 = (hier_aux (stripIntroScan l).2 1).2 := rfl
  rw [h]
  exact hier_aux_spec (stripIntroScan l).2 1

/-- `format_footnotes` on a list of all-non-empty verses emits one line per
footnote. -/
theorem format_footnotes_join (fns : List Footnote) (h : ∀ f ∈ fns, f.verses ≠ "") :
    format_footnotes fns = joinStrings (fns.map mdFootnoteLine) := by
  induction fns with
  | nil => rfl
  | cons f rest ih =>
      have hf : f.verses ≠ "" := h f (by simp)
      simp only [format_footnotes, List.map_cons, joinStrings, if_pos hf]
      rw [ih fun g hg => h g (by simp [hg])]

/-! ## Claims -/

/-- C10: every footnote list returned by an answer-formatting function
(plain, list, or hierarchical mode, in either renderer family) has the
footnote at 0-based position `i` carrying number `i + 1` and a non-empty
verses string, and `format_footnotes` emits one reference line per footnote
of such a list. -/
theorem c10_footnote_list_invariant (secs : List Section) :
    FootnoteInv (format_regular_sections secs).2
    ∧ FootnoteInv (format_enumerated_list secs).2.2
    ∧ FootnoteInv (process_regular_answer secs).2
    ∧ FootnoteInv (process_list_answer secs).2
    ∧ FootnoteInv (process_hierarchical_answer secs).2.1
    ∧ format_footnotes (format_regular_sections secs).2
        = joinStrings ((format_regular_sections secs).2.map mdFootnoteLine)
    ∧ format_footnotes (format_enumerated_list secs).2.2
        = joinStrings ((format_enumerated_list secs).2.2.map mdFootnoteLine) := by
  obtain ⟨r1, _, r3⟩ := format_regular_aux_spec secs 1
  obtain ⟨e1, _, e3⟩ := format_enumerated_list_fns_spec secs
  obtain ⟨a1, _, a3⟩ := pra_aux_spec secs 1
  obtain ⟨l1, _, l3⟩ := process_list_answer_fns_spec secs
  obtain ⟨h1, h3⟩ := process_hierarchical_answer_fns_spec secs
  exact ⟨footnoteInv_of _ r1 r3, footnoteInv_of _ e1 e3, footnoteInv_of _ a1 a3,
    footnoteInv_of _ l1 l3, footnoteInv_of _ h1 h3,
    format_footnotes_join _ r3, format_footnotes_join _ e3⟩

/-- C10 witness: the invariant evaluated at the round-trip scenario input. -/
theorem c10_witness :
    ((format_regular_sections exPlain).2.getD 0 ⟨0, ""⟩).number = 1
    ∧ ((format_regular_sections exPlain).2.getD 0 ⟨0, ""⟩).verses ≠ "" :=
  (c10_footnote_list_invariant exPlain).1 0 (by decide)

/-- C1 fails as stated: a section with empty text but non-empty verses is
counted by "sections with non-empty verses" yet allocates no footnote, so the
footnote numbers are not `{1..k}` for that `k`. -/
theorem c1_counterexample :
    (mdFootnotes exEmptyText).map Footnote.number
      ≠ List.range' 1 ((exEmptyText.sections.filter fun s => s.verses ≠ "").length) := by
  decide

/-- C1 (amended): for every question rendered by the markdown renderer, and
for every section list processed by `process_list_answer`, the footnote
numbers are exactly the contiguous `1..k` (in rendered order, the counter
shared across the intro and list partitions), where `k` counts the sections
with non-empty text and non-empty verses. -/
theorem c1_footnote_numbers :
    (∀ q : Question, (mdFootnotes q).map Footnote.number
        = List.range' 1 ((q.sections.filter hasRenderableVerses).length))
    ∧ ∀ l : List Section, (process_list_answer l).2.map Footnote.number
        = List.range' 1 ((l.filter hasRenderableVerses).length) := by
  constructor
  · intro q
    unfold mdFootnotes
    by_cases h : should_format_as_enumerated_list q.sections
    · obtain ⟨e1, e2, _⟩ := format_enumerated_list_fns_spec q.sections
      rw [if_pos h, e1, e2]
    · obtain ⟨r1, r2, _⟩ := format_regular_aux_spec q.sections 1
      rw [if_neg h]
      show (format_regular_aux q.sections 1).2.map Footnote.number = _
      rw [r1, r2]
  · intro l
    obtain ⟨p1, p2, _⟩ := process_list_answer_fns_spec l
    rw [p1, p2]

/-- C2 fails as stated: three sections matching `1. From ` make
`detect_hierarchical_answer` fire, but the markdown renderer
(`format_question`) has no hierarchical rule at all — it classifies these
sections as an enumerated list, so the rule does not hold "in every renderer
family". -/
theorem c2_counterexample :
    detect_hierarchical_answer exFrom3 = true
    ∧ mdAnswerMode exFrom3 = AnswerMode.list
    ∧ mdAnswerMode exFrom3 ≠ AnswerMode.hierarchical := by
  decide

/-- C2 (amended): in the LaTeX renderer family (`process_answer`), the mode is
hierarchical exactly when three or more sections have non-empty text matching
`^\d+\. From `, and this rule pre-empts the list and plain rules (the
equivalence holds whatever the list rule would say).  The markdown renderer
has no hierarchical mode. -/
theorem c2_hierarchical_priority (secs : List Section) :
    answerMode secs = AnswerMode.hierarchical
      ↔ 3 ≤ (secs.filter hierSection).length := by
  unfold answerMode
  constructor
  · intro hmode
    by_contra hno
    have hfalse : detect_hierarchical_answer secs = false := by
      unfold detect_hierarchical_answer
      simpa using hno
    rw [hfalse] at hmode
    by_cases hl : detect_list_sections secs <;> simp [hl] at hmode
  · intro h3
    have htrue : detect_hierarchical_answer secs = true := by
      unfold detect_hierarchical_answer
      simpa using h3
    rw [htrue]
    simp

/-- C3: list-mode classification.  In the markdown renderer,
`should_format_as_enumerated_list` holds exactly when at least three of the
non-empty sections are enumerated list items; in the LaTeX family the mode is
list exactly when at least three non-empty sections are list items and the
hierarchical rule did not fire; at the boundary, two matching sections do not
give list mode and three do. -/
theorem c3_list_mode_boundary :
    (∀ secs : List Section,
        (should_format_as_enumerated_list secs
          ↔ 3 ≤ ((secs.filter fun s => s.text ≠ "").filter
              fun s => is_enumerated_list_item s.text).length))
    ∧ (∀ secs : List Section,
        (answerMode secs = AnswerMode.list
          ↔ 3 ≤ (secs.filter listSection).length
            ∧ (secs.filter hierSection).length < 3))
    ∧ should_format_as_enumerated_list exEnum2 = false
    ∧ should_format_as_enumerated_list exEnum3 = true
    ∧ answerMode exEnum2 ≠ AnswerMode.list
    ∧ answerMode exEnum3 = AnswerMode.list := by
  refine ⟨?_, ?_, by decide, by decide, by decide, by decide⟩
  · intro secs
    rw [show should_format_as_enumerated_list secs
        = (if (secs.filter fun s => s.text ≠ "") = [] then false
           else decide (3 ≤ ((secs.filter fun s => s.text ≠ "").filter
              fun s => is_enumerated_list_item s.text).length)) from rfl]
    by_cases h : (secs.filter fun s => s.text ≠ "") = []
    · rw [if_pos h, h]
      simp
    · rw [if_neg h]
      simp
  · intro secs
    unfold answerMode detect_list_sections detect_hierarchical_answer
    by_cases hh : 3 ≤ (secs.filter hierSection).length <;>
      by_cases hl : 3 ≤ (secs.filter listSection).length <;>
      simp [hh, hl] <;> omega

/-- When no section's text contains the marker phrase, the marker scan leaves
the section list unchanged. -/
theorem stripIntroScan_no_marker (l : List Section)
    (h : ∀ s ∈ l, containsMarker s.text = false) :
    stripIntroScan l = (none, l) := by
  induction l with
  | nil => rfl
  | cons s rest ih =>
      have hs : containsMarker s.text = false := h s (by simp)
      have hcond : ¬ (s.text ≠ "" ∧ containsMarker s.text) := by simp [hs]
      rw [stripIntroScan, if_neg hcond, ih fun t ht => h t (by simp [ht])]

/-- C9: `process_answer` leaves the question's sections untouched in plain and
list mode; in hierarchical mode with the marker phrase present it overwrites
one section's text in place, so a second call on the same (mutated) question
can return a different answer than the first; and on any question whose
sections never contain the marker phrase, the sections are unchanged and a
second call returns exactly the first call's result. -/
theorem c9_process_answer_mutation :
    (∀ q : Question, answerMode q.sections ≠ AnswerMode.hierarchical →
        (process_answer q).2.2 = q.sections)
    ∧ ((process_answer ⟨exMarker.id, exMarker.question, (process_answer exMarker).2.2⟩).1
        ≠ (process_answer exMarker).1
      ∧ (process_answer exMarker).2.2 ≠ exMarker.sections)
    ∧ ∀ q : Question, (∀ s ∈ q.sections, containsMarker s.text = false) →
        (process_answer q).2.2 = q.sections
        ∧ process_answer ⟨q.id, q.question, (process_answer q).2.2⟩ = process_answer q := by
  refine ⟨?_, by decide, ?_⟩
  · intro q h
    by_cases hd : detect_hierarchical_answer q.sections
    · exact absurd (by unfold answerMode; simp [hd]) h
    · by_cases hl : detect_list_sections q.sections <;> simp [process_answer, hd, hl]
  · intro q h
    have hsecs : (process_answer q).2.2 = q.sections := by
      by_cases hd : detect_hierarchical_answer q.sections
      · have hscan := stripIntroScan_no_marker q.sections h
        simp [process_answer, hd, process_hierarchical_answer, hscan]
      · by_cases hl : detect_list_sections q.sections <;> simp [process_answer, hd, hl]
    exact ⟨hsecs, by rw [hsecs]⟩

/-- C9 witness: evaluated at a marker-free plain question. -/
theorem c9_witness :
    (process_answer ⟨"5", "Why?", exPlain⟩).2.2 = exPlain
    ∧ process_answer ⟨"5", "Why?", (process_answer ⟨"5", "Why?", exPlain⟩).2.2⟩
        = process_answer ⟨"5", "Why?", exPlain⟩ :=
  c9_process_answer_mutation.2.2 ⟨"5", "Why?", exPlain⟩ (by decide)

/-- The shift-based double comparison decides the order of the exact values
`q1 * 2 ^ e1` and `q2 * 2 ^ e2`. -/
theorem dblLt_iff_val (q1 : Nat) (e1 : Int) (q2 : Nat) (e2 : Int) :
    dblLt q1 e1 q2 e2 = true ↔ dblVal q1 e1 < dblVal q2 e2 := by
  unfold dblLt dblVal
  have h2 : (0 : ℚ) < 2 := by norm_num
  by_cases he : e1 ≤ e2
  · rw [if_pos he, decide_eq_true_eq]
    have hz : (0 : ℚ) < (2 : ℚ) ^ e1 := zpow_pos h2 e1
    have key : ((q2 * 2 ^ (e2 - e1).toNat : Nat) : ℚ) * (2 : ℚ) ^ e1
        = (q2 : ℚ) * (2 : ℚ) ^ e2 := by
      push_cast
      rw [mul_assoc, ← zpow_natCast (2 : ℚ) (e2 - e1).toNat,
        Int.toNat_of_nonneg (by omega : (0 : ℤ) ≤ e2 - e1),
        ← zpow_add₀ (by norm_num : (2 : ℚ) ≠ 0),
        show e2 - e1 + e1 = e2 from by omega]
    constructor
    · intro h
      have hq : ((q1 : Nat) : ℚ) < ((q2 * 2 ^ (e2 - e1).toNat : Nat) : ℚ) := by
        exact_mod_cast h
      have := (mul_lt_mul_right hz).mpr hq
      rw [key] at this
      exact this
    · intro h
      have h' : ((q1 : Nat) : ℚ) * (2 : ℚ) ^ e1
          < ((q2 * 2 ^ (e2 - e1).toNat : Nat) : ℚ) * (2 : ℚ) ^ e1 := by
        rw [key]
        exact h
      have := (mul_lt_mul_right hz).mp h'
      exact_mod_cast this
  · rw [if_neg he, decide_eq_true_eq]
    have hz : (0 : ℚ) < (2 : ℚ) ^ e2 := zpow_pos h2 e2
    have key : ((q1 * 2 ^ (e1 - e2).toNat : Nat) : ℚ) * (2 : ℚ) ^ e2
        = (q1 : ℚ) * (2 : ℚ) ^ e1 := by
      push_cast
      rw [mul_assoc, ← zpow_natCast (2 : ℚ) (e1 - e2).toNat,
        Int.toNat_of_nonneg (by omega : (0 : ℤ) ≤ e1 - e2),
        ← zpow_add₀ (by norm_num : (2 : ℚ) ≠ 0),
        show e1 - e2 + e2 = e1 from by omega]
    constructor
    · intro h
      have hq : ((q1 * 2 ^ (e1 - e2).toNat : Nat) : ℚ) < ((q2 : Nat) : ℚ) := by
        exact_mod_cast h
      have := (mul_lt_mul_right hz).mpr hq
      rw [key] at this
      exact this
    · intro h
      have h' : ((q1 * 2 ^ (e1 - e2).toNat : Nat) : ℚ) * (2 : ℚ) ^ e2
          < ((q2 : Nat) : ℚ) * (2 : ℚ) ^ e2 := by
        rw [key]
        exact h
      have := (mul_lt_mul_right hz).mp h'
      exact_mod_cast this

/-- The key comparison of two numeric ids never raises and decides the order
of the double values. -/
theorem pyKeyLt_numeric (x y : String)
    (hx : pyIsNumericId x = true) (hy : pyIsNumericId y = true) :
    pyKeyLt (sortKey x) (sortKey y) = .ok (decide (floatValQ x < floatValQ y)) := by
  rw [sortKey, if_pos hx, sortKey, if_pos hy]
  show Except.ok (dblLt (floatOfId x).1 (floatOfId x).2
      (floatOfId y).1 (floatOfId y).2) = _
  congr 1
  cases hb : dblLt (floatOfId x).1 (floatOfId x).2 (floatOfId y).1 (floatOfId y).2
  · have hlt : ¬ (floatValQ x < floatValQ y) := fun hc => by
      have := (dblLt_iff_val _ _ _ _).mpr hc
      rw [hb] at this
      exact Bool.false_ne_true this
    simp [hlt]
  · have hlt : floatValQ x < floatValQ y := (dblLt_iff_val _ _ _ _).mp hb
    simp [hlt]

/-- Stable insertion of a numeric id into a list of numeric ids never raises,
permutes, and preserves sortedness by double value. -/
theorem pyInsert_numeric (x : String) (hx : pyIsNumericId x = true) :
    ∀ l : List String, (∀ y ∈ l, pyIsNumericId y = true) →
      ∃ out, pyInsert x l = .ok out ∧ out.Perm (x :: l)
        ∧ (l.Pairwise (fun a b => floatValQ a ≤ floatValQ b) →
            out.Pairwise fun a b => floatValQ a ≤ floatValQ b) := by
  intro l
  induction l with
  | nil => exact fun _ => ⟨[x], rfl, .refl _, by simp⟩
  | cons y ys ih =>
      intro hl
      have hy : pyIsNumericId y = true := hl y (by simp)
      have hkey := pyKeyLt_numeric y x hy hx
      by_cases hlt : floatValQ y < floatValQ x
      · obtain ⟨out, hout, hperm, hpair⟩ := ih fun z hz => hl z (by simp [hz])
        refine ⟨y :: out, by simp [pyInsert, hkey, hlt, hout], ?_, ?_⟩
        · exact (hperm.cons y).trans (List.Perm.swap x y ys)
        · intro hp
          obtain ⟨hyys, hpys⟩ := List.pairwise_cons.mp hp
          refine List.Pairwise.cons ?_ (hpair hpys)
          intro z hz
          rcases List.mem_cons.mp (hperm.mem_iff.mp hz) with rfl | hz'
          · exact le_of_lt hlt
          · exact hyys z hz'
      · refine ⟨x :: y :: ys, by simp [pyInsert, hkey, hlt], .refl _, ?_⟩
        intro hp
        refine List.Pairwise.cons ?_ hp
        intro z hz
        rcases List.mem_cons.mp hz with rfl | hz
        · exact le_of_not_lt hlt
        · have hyz := (List.pairwise_cons.mp hp).1 z hz
          exact le_trans (le_of_not_lt hlt) hyz

/-- Sorting a list of numeric ids never raises, permutes, and sorts by
double value. -/
theorem pySortIds_numeric (ids : List String)
    (h : ∀ x ∈ ids, pyIsNumericId x = true) :
    ∃ out, pySortIds ids = .ok out ∧ out.Perm ids
      ∧ out.Pairwise fun a b => floatValQ a ≤ floatValQ b := by
  induction ids with
  | nil => exact ⟨[], rfl, .refl _, by simp⟩
  | cons x xs ih =>
      obtain ⟨out, hout, hperm, hpair⟩ := ih fun z hz => h z (by simp [hz])
      have hx := h x (by simp)
      have hall : ∀ y ∈ out, pyIsNumericId y = true := fun y hy =>
        h y (by simp [hperm.mem_iff.mp hy])
      obtain ⟨out2, hout2, hperm2, hpair2⟩ := pyInsert_numeric x hx out hall
      refine ⟨out2, ?_, ?_, hpair2 hpair⟩
      · simp [pySortIds, hout, hout2]
      · exact hperm2.trans (hperm.cons x)

/-- C4 fails as stated: with one numeric id and one non-numeric id, the key
comparison is a Python `float < str` comparison, which raises `TypeError`
(modelled by `Except.error`) instead of producing an interleaved ordering. -/
theorem c4_counterexample : pySortIds ["1", "a"] = .error () := rfl

/-- C4 (amended): the sort treats an all-digits-with-at-most-one-dot id as
its double-precision value `float(q_id)`; a list of such ids sorts ascending
by double value (so `["2", "10", "1.5", "1"]` yields
`["1", "1.5", "2", "10"]`), distinct decimals rounding to the same double
keep their input order (the 17-digit pair below has equal keys and is
returned unchanged by the stable sort), and mixing a numeric and a
non-numeric id makes the comparator raise `TypeError` rather than
interleave. -/
theorem c4_sort_numeric_ids (ids : List String)
    (h : ∀ x ∈ ids, pyIsNumericId x = true) :
    pySortIds ["2", "10", "1.5", "1"] = .ok ["1", "1.5", "2", "10"]
    ∧ sortKey "10000000000000001" = sortKey "10000000000000000"
    ∧ pySortIds ["10000000000000001", "10000000000000000"]
        = .ok ["10000000000000001", "10000000000000000"]
    ∧ ∃ out, pySortIds ids = .ok out ∧ out.Perm ids
        ∧ out.Pairwise fun a b => floatValQ a ≤ floatValQ b :=
  ⟨rfl, rfl, rfl, pySortIds_numeric ids h⟩

/-- C4 witness: the documented example, obtained from the theorem. -/
theorem c4_witness : pySortIds ["2", "10", "1.5", "1"] = .ok ["1", "1.5", "2", "10"] :=
  (c4_sort_numeric_ids ["2", "10", "1.5", "1"] (by decide)).1

/-- `rcData` distributes over cons. -/
theorem rcData_cons (pat : Char) (rep : List Char) (c : Char) (cs : List Char) :
    rcData pat rep (c :: cs)
      = (if c = pat then rep else [c]) ++ rcData pat rep cs := by
  simp [rcData]

/-- `rcData` distributes over append. -/
theorem rcData_append (pat : Char) (rep : List Char) (a b : List Char) :
    rcData pat rep (a ++ b) = rcData pat rep a ++ rcData pat rep b := by
  simp [rcData]

/-- The sequential single-character replaces of `create_bible_url` compute
the simultaneous character-wise URL encoding. -/
theorem rcData_chain_eq_encode (l : List Char) :
    rcData ',' "%2C".data (rcData ';' "%3B".data
        (rcData ':' "%3A".data (rcData ' ' "+".data l)))
      = (l.map urlEncodeChar).flatten := by
  induction l with
  | nil => rfl
  | cons c cs ih =>
      rw [rcData_cons, rcData_append, rcData_append, rcData_append, ih,
        List.map_cons, List.flatten_cons]
      congr 1
      by_cases h1 : c = ' '
      · subst h1; rfl
      · by_cases h2 : c = ':'
        · subst h2; rfl
        · by_cases h3 : c = ';'
          · subst h3; rfl
          · by_cases h4 : c = ','
            · subst h4; rfl
            · simp [rcData, urlEncodeChar, h1, h2, h3, h4]

/-- C7: the generated link target is exactly the BibleGateway search URL with
the verse string URL-encoded character-wise (space to `+`, `:` to `%3A`, `;`
to `%3B`, `,` to `%2C`); in particular `1 John 4:8` encodes to
`1+John+4%3A8`. -/
theorem c7_bible_url :
    (∀ v : String, create_bible_url v
        = "https://www.biblegateway.com/passage/?search="
          ++ urlEncode v ++ "&version=ESV")
    ∧ create_bible_url "1 John 4:8"
        = "https://www.biblegateway.com/passage/?search=1+John+4%3A8&version=ESV" := by
  constructor
  · intro v
    unfold create_bible_url urlEncode
    congr 2
    show String.mk (rcData ',' "%2C".data (rcData ';' "%3B".data
        (rcData ':' "%3A".data (rcData ' ' "+".data v.data)))) = _
    rw [rcData_chain_eq_encode]
  · decide

/-- C8: loading keeps exactly the records with both `id` and `question` keys,
in file order, with every section's text and verses stripped of surrounding
whitespace; a file whose open/parse raised is caught per-file and contributes
an empty list, and processing continues with the remaining files. -/
theorem c8_loading :
    (∀ e : String, load_toml_file (.error e) = [])
    ∧ (∀ files1 files2 : List (Except String TomlData), ∀ e : String,
        loadAllFiles (files1 ++ .error e :: files2)
          = loadAllFiles files1 ++ loadAllFiles files2)
    ∧ (∀ rs : List RawRecord,
        loadRecords rs = (rs.filter keepRecord).map parse_question_data)
    ∧ (∀ r : RawRecord,
        load_toml_file (.ok (.single r))
          = if keepRecord r then [parse_question_data r] else [])
    ∧ (∀ r : RawRecord, (parse_question_data r).sections
        = r.rawSections.map fun s =>
            ⟨pyStrip (s.rawText.getD ""), pyStrip (s.rawVerses.getD "")⟩) := by
  refine ⟨fun _ => rfl, ?_, ?_, fun _ => rfl, fun _ => rfl⟩
  · intro files1 files2 e
    induction files1 with
    | nil => simp [loadAllFiles, load_toml_file]
    | cons f fs ih => simp [loadAllFiles, ih, List.append_assoc]
  · intro rs
    induction rs with
    | nil => rfl
    | cons r rest ih =>
        by_cases h : keepRecord r <;>
          simp [loadRecords, List.filter_cons, h, ih]

/-- The empty string is a left identity of string append. -/
theorem str_empty_append (s : String) : "" ++ s = s := rfl

/-- Trimming a list that starts with `'A'` is never empty. -/
theorem trimList_A_cons (l : List Char) : trimList ('A' :: l) ≠ [] := by
  unfold trimList
  have h1 : ('A' :: l).dropWhile Char.isWhitespace = 'A' :: l := by
    rw [List.dropWhile_cons]
    simp
  rw [h1]
  intro hc
  rw [List.reverse_eq_nil_iff, List.dropWhile_eq_nil_iff] at hc
  have := hc 'A' (by simp)
  exact absurd this (by decide)

/-- `process_regular_answer` always emits at least `A:`. -/
theorem process_regular_answer_ne (l : List Section) :
    (process_regular_answer l).1 ≠ "" := by
  show String.mk (trimList ('A' :: ':' :: ' ' :: (pra_aux l 1).1.data)) ≠ ""
  intro hc
  exact trimList_A_cons _ (congrArg String.data hc)

/-- The empty string is a right identity of string append. -/
theorem str_append_empty (s : String) : s ++ "" = s :=
  congrArg String.mk (List.append_nil s.data)

/-- `assignNums` decorates exactly the given sections, in order. -/
theorem assignNums_fst (L : List Section) (n : Nat) :
    (assignNums L n).map Prod.fst = L := by
  induction L generalizing n with
  | nil => rfl
  | cons s rest ih => by_cases hv : s.verses = "" <;> simp [assignNums, hv, ih]

/-- The LaTeX list loop emits exactly one `\item` line per list section, the
number prefix stripped and the footnote marker attached to the verse-bearing
items, numbered by the running counter. -/
theorem latex_list_aux_items (items : List Section) (n : Nat) :
    (latex_list_aux items n).1
      = joinStrings ((assignNums items n).map fun p => latexItemLineFn p.1 p.2) := by
  induction items generalizing n with
  | nil => rfl
  | cons s rest ih =>
      by_cases hv : s.verses = ""
      · simp [latex_list_aux, assignNums, hv, joinStrings, latexItemLineFn,
          ih, str_append_empty, String.append_assoc]
      · simp [latex_list_aux, assignNums, hv, joinStrings, latexItemLineFn,
          ih, String.append_assoc]

/-- The markdown list loop emits exactly the enumerated sections with
re-emitted source number, stripped text and marker for the verse-bearing
items, separated by newlines. -/
theorem md_list_aux_items :
    ∀ secs : List Section, ∀ n : Nat,
      ((md_list_aux secs n false).1
        = joinStrings ((assignNums (secs.filter enumSection) n).map
            fun p => "\n" ++ mdItemLineFn p.1 p.2))
      ∧ ((md_list_aux secs n true).1
        = (match assignNums (secs.filter enumSection) n with
           | [] => ""
           | p0 :: rest =>
              mdItemLineFn p0.1 p0.2
                ++ joinStrings (rest.map fun p => "\n" ++ mdItemLineFn p.1 p.2))) := by
  intro secs
  induction secs with
  | nil => exact fun n => ⟨rfl, rfl⟩
  | cons s rest ih =>
      intro n
      by_cases ht : s.text = ""
      · have he : enumSection s = false := by simp [enumSection, ht]
        exact ⟨by simp [md_list_aux, ht, List.filter_cons, he, (ih n).1],
               by simp [md_list_aux, ht, List.filter_cons, he, (ih n).2]⟩
      · by_cases hen : is_enumerated_list_item s.text
        · have he : enumSection s = true := by simp [enumSection, ht, hen]
          by_cases hv : s.verses = ""
          · constructor
            · simp [md_list_aux, ht, hen, hv, List.filter_cons, he, assignNums,
                (ih n).1, mdItemLineFn, joinStrings, String.append_assoc,
                str_append_empty, str_empty_append]
            · simp [md_list_aux, ht, hen, hv, List.filter_cons, he, assignNums,
                (ih n).1, mdItemLineFn, joinStrings, String.append_assoc,
                str_append_empty, str_empty_append]
          · constructor
            · simp [md_list_aux, ht, hen, hv, List.filter_cons, he, assignNums,
                (ih (n + 1)).1, mdItemLineFn, joinStrings, String.append_assoc,
                str_empty_append]
            · simp [md_list_aux, ht, hen, hv, List.filter_cons, he, assignNums,
                (ih (n + 1)).1, mdItemLineFn, joinStrings, String.append_assoc,
                str_empty_append]
        · have he : enumSection s = false := by simp [enumSection, hen]
          exact ⟨by simp [md_list_aux, ht, hen, List.filter_cons, he, (ih n).1],
                 by simp [md_list_aux, ht, hen, List.filter_cons, he, (ih n).2]⟩

/-- C6 fails as stated: the markdown list block's visible numbering is not
supplied by the list environment — the source numbers are re-emitted, so
items numbered 2, 5, 9 in the source keep those markers instead of being
renumbered 1, 2, 3. -/
theorem c6_counterexample :
    should_format_as_enumerated_list exOddNums = true
    ∧ (format_enumerated_list exOddNums).2.1 = "2. A\n5. B\n9. C"
    ∧ (format_enumerated_list exOddNums).2.1 ≠ "1. A\n2. B\n3. C" := by
  decide

/-- C6 (amended): the rendered ordered-list block wraps exactly the list-item
sections, each with its number-and-period (or bracket) prefix stripped and a
footnote marker attached when verses are present, the marker numbers taken
from the running counter (`assignNums`); in the LaTeX renderer the
`enumerate` environment supplies the visible numbering, while the markdown
renderer re-emits each item's source number as its marker.  The spec's
three-reasons scenario yields list mode, items 1-3, no footnotes, and a
zero-length reference block; a verse-bearing variant carries its markers. -/
theorem c6_list_items :
    (∀ (L : List Section) (n : Nat), (assignNums L n).map Prod.fst = L)
    ∧ (∀ secs : List Section,
        (format_enumerated_list secs).2.1
          = (match assignNums (secs.filter enumSection)
                ((format_non_list_items secs).2.length + 1) with
             | [] => ""
             | p0 :: rest =>
                mdItemLineFn p0.1 p0.2
                  ++ joinStrings (rest.map fun p => "\n" ++ mdItemLineFn p.1 p.2)))
    ∧ (∀ secs : List Section, secs.filter listSection ≠ [] →
        (process_list_answer secs).1
          = (process_regular_answer (secs.filter regularSection)).1 ++ "\n\n"
              ++ "\\begin\x7benumerate\x7d\n"
              ++ joinStrings ((assignNums (secs.filter listSection)
                    ((process_regular_answer (secs.filter regularSection)).2.length + 1)).map
                  fun p => latexItemLineFn p.1 p.2)
              ++ "\\end\x7benumerate\x7d")
    ∧ should_format_as_enumerated_list exReasons = true
    ∧ answerMode exReasons = AnswerMode.list
    ∧ format_enumerated_list exReasons
        = ("", "1. First reason.\n2. Second reason.\n3. Third reason.", [])
    ∧ format_footnotes [] = ""
    ∧ process_list_answer exReasons
        = ("A:\n\n\\begin\x7benumerate\x7d\n\\item First reason.\n\\item Second reason.\n\\item Third reason.\n\\end\x7benumerate\x7d",
           [])
    ∧ process_list_answer exMixedVerses
        = ("A: Intro text.$^\x7b1\x7d$\n\n\\begin\x7benumerate\x7d\n\\item First.$^\x7b2\x7d$\n\\item Second.\n\\item Third.$^\x7b3\x7d$\n\\end\x7benumerate\x7d",
           [⟨1, "Rom 1:1"⟩, ⟨2, "Gen 1:1"⟩, ⟨3, "Ex 2:2"⟩])
    ∧ format_enumerated_list exMixedVerses
        = ("Intro text.$^\x7b1\x7d$",
           "1. First.$^\x7b2\x7d$\n2. Second.\n3. Third.$^\x7b3\x7d$",
           [⟨1, "Rom 1:1"⟩, ⟨2, "Gen 1:1"⟩, ⟨3, "Ex 2:2"⟩]) := by
  refine ⟨assignNums_fst, ?_, ?_, by decide, by decide, by decide, by decide,
    by decide, by decide, by decide⟩
  · intro secs
    show (md_list_aux secs ((format_non_list_aux secs 1).2.length + 1) true).1 = _
    exact (md_list_aux_items secs _).2
  · intro secs hne
    have hintro := process_regular_answer_ne (secs.filter regularSection)
    show (if secs.filter listSection = [] then
            process_regular_answer (secs.filter regularSection)
          else
            ((if (process_regular_answer (secs.filter regularSection)).1 ≠ "" then
                (process_regular_answer (secs.filter regularSection)).1 ++ "\n\n"
              else (process_regular_answer (secs.filter regularSection)).1)
              ++ "\\begin\x7benumerate\x7d\n"
              ++ (latex_list_aux (secs.filter listSection)
                  ((process_regular_answer (secs.filter regularSection)).2.length + 1)).1
              ++ "\\end\x7benumerate\x7d",
             (process_regular_answer (secs.filter regularSection)).2
               ++ (latex_list_aux (secs.filter listSection)
                  ((process_regular_answer (secs.filter regularSection)).2.length + 1)).2)).1
        = _
    rw [if_neg hne, if_pos hintro, latex_list_aux_items]

/-- C6 witness: the amended LaTeX equation evaluated at the verse-bearing
mixed scenario. -/
theorem c6_witness :
    (process_list_answer exMixedVerses).1
      = (process_regular_answer (exMixedVerses.filter regularSection)).1 ++ "\n\n"
        ++ "\\begin\x7benumerate\x7d\n"
        ++ joinStrings ((assignNums (exMixedVerses.filter listSection)
              ((process_regular_answer (exMixedVerses.filter regularSection)).2.length + 1)).map
            fun p => latexItemLineFn p.1 p.2)
        ++ "\\end\x7benumerate\x7d" :=
  c6_list_items.2.2.1 exMixedVerses (by decide)

/-! ## Pipe-freeness of the markdown rendering (no table is ever emitted) -/

/-- String append acts as list append on the character data. -/
theorem strData_append (a b : String) : (a ++ b).data = a.data ++ b.data := rfl

/-- Appending preserves pipe-freeness. -/
theorem pipeFree_append (a b : String) (ha : pipeFree a) (hb : pipeFree b) :
    pipeFree (a ++ b) := by
  intro h
  rw [strData_append] at h
  rcases List.mem_append.mp h with h | h
  · exact ha h
  · exact hb h

/-- `Nat.digitChar` never yields `'|'`. -/
theorem digitChar_no_pipe (m : Nat) : Nat.digitChar m ≠ '|' := by
  match m with
  | 0 | 1 | 2 | 3 | 4 | 5 | 6 | 7 | 8 | 9 | 10 | 11 | 12 | 13 | 14 | 15 => decide
  | n + 16 =>
      have h : Nat.digitChar (n + 16) = '*' := by
        unfold Nat.digitChar
        repeat rw [if_neg (by omega)]
      rw [h]
      decide

/-- `Nat.toDigitsCore` only adds digit characters to its accumulator. -/
theorem toDigitsCore_no_pipe (b : Nat) (fuel : Nat) :
    ∀ (n : Nat) (acc : List Char), '|' ∉ acc → '|' ∉ Nat.toDigitsCore b fuel n acc := by
  induction fuel with
  | zero => intro n acc hacc; simpa [Nat.toDigitsCore] using hacc
  | succ fuel ih =>
      intro n acc hacc
      rw [Nat.toDigitsCore]
      split
      · intro hmem
        rcases List.mem_cons.mp hmem with h | h
        · exact digitChar_no_pipe _ h.symm
        · exact hacc h
      · refine ih _ _ ?_
        intro hmem
        rcases List.mem_cons.mp hmem with h | h
        · exact digitChar_no_pipe _ h.symm
        · exact hacc h

/-- The decimal rendering of a natural number contains no `'|'`. -/
theorem toString_nat_no_pipe (n : Nat) : pipeFree (toString n) := by
  show '|' ∉ Nat.toDigitsCore 10 (n + 1) n []
  exact toDigitsCore_no_pipe 10 (n + 1) n [] (by simp)

/-- Footnote markers contain no `'|'`. -/
theorem marker_no_pipe (n : Nat) : pipeFree (marker n) :=
  pipeFree_append _ _ (pipeFree_append _ _ (by decide) (toString_nat_no_pipe n)) (by decide)

/-- Trimming keeps only characters of the original list. -/
theorem mem_trimList (c : Char) (l : List Char) (h : c ∈ trimList l) : c ∈ l := by
  unfold trimList at h
  rw [List.mem_reverse] at h
  have h2 := (List.dropWhile_sublist _).mem h
  rw [List.mem_reverse] at h2
  exact (List.dropWhile_sublist _).mem h2

/-- `pyStrip` preserves pipe-freeness. -/
theorem pipeFree_pyStrip (s : String) (h : pipeFree s) : pipeFree (pyStrip s) :=
  fun hc => h (mem_trimList _ _ hc)

/-- The two groups of an enumerated-item match are sublists of the input. -/
theorem enumMatch_sublist (cs : List Char) (p : List Char × List Char)
    (h : enumMatch cs = some p) : p.1.Sublist cs ∧ p.2.Sublist cs := by
  unfold enumMatch at h
  have hsub : (cs.dropWhile Char.isDigit).Sublist cs := List.dropWhile_sublist _
  rcases hd : cs.dropWhile Char.isDigit with _ | ⟨c1, _ | ⟨c2, rest⟩⟩ <;> rw [hd] at h hsub
  · exact absurd (show (none : Option (List Char × List Char)) = some p from h) (by simp)
  · exact absurd (show (none : Option (List Char × List Char)) = some p from h) (by simp)
  · replace h : (if cs.takeWhile Char.isDigit ≠ [] ∧ c1 = '.' ∧ c2.isWhitespace then
        some (cs.takeWhile Char.isDigit, rest) else none) = some p := h
    by_cases hc : cs.takeWhile Char.isDigit ≠ [] ∧ c1 = '.' ∧ c2.isWhitespace
    · rw [if_pos hc] at h
      have hp := Option.some.inj h
      constructor
      · rw [← hp]
        exact List.takeWhile_sublist _
      · rw [← hp]
        exact ((List.sublist_cons_self c2 rest).trans
          (List.sublist_cons_self c1 (c2 :: rest))).trans hsub
    · rw [if_neg hc] at h
      cases h

/-- The re-emitted item number is pipe-free when the text is. -/
theorem itemNum_no_pipe (t : String) (h : pipeFree t) :
    pipeFree ((get_list_item_number t).getD "") := by
  unfold get_list_item_number
  rcases he : enumMatch t.data with _ | p
  · decide
  · show pipeFree (String.mk p.1)
    have hsub := (enumMatch_sublist t.data p he).1
    intro hc
    exact h (hsub.mem hc)

/-- The stripped item text is pipe-free when the text is. -/
theorem stripped_no_pipe (t : String) (h : pipeFree t) :
    pipeFree (strip_list_item_number t) := by
  unfold strip_list_item_number
  rcases he : enumMatch t.data with _ | p
  · exact h
  · show pipeFree (String.mk p.2)
    have hsub := (enumMatch_sublist t.data p he).2
    intro hc
    exact h (hsub.mem hc)

/-- The URL encoding introduces no `'|'`. -/
theorem urlChain_no_pipe (v : String) (h : pipeFree v) :
    '|' ∉ rcData ',' "%2C".data (rcData ';' "%3B".data
        (rcData ':' "%3A".data (rcData ' ' "+".data v.data))) := by
  rw [rcData_chain_eq_encode]
  intro hmem
  rw [List.mem_flatten] at hmem
  obtain ⟨lc, hlc, hpipe⟩ := hmem
  rw [List.mem_map] at hlc
  obtain ⟨c, hc, rfl⟩ := hlc
  by_cases h1 : c = ' '
  · subst h1
    exact absurd hpipe (by decide)
  · by_cases h2 : c = ':'
    · subst h2
      exact absurd hpipe (by decide)
    · by_cases h3 : c = ';'
      · subst h3
        exact absurd hpipe (by decide)
      · by_cases h4 : c = ','
        · subst h4
          exact absurd hpipe (by decide)
        · have hcc : '|' = c := by simpa [urlEncodeChar, h1, h2, h3, h4] using hpipe
          exact h (hcc ▸ hc)

/-- The generated BibleGateway URL is pipe-free when the verse string is. -/
theorem url_no_pipe (v : String) (h : pipeFree v) : pipeFree (create_bible_url v) := by
  refine pipeFree_append _ _ (pipeFree_append _ _ (by decide) ?_) (by decide)
  show '|' ∉ rcData ',' "%2C".data (rcData ';' "%3B".data
      (rcData ':' "%3A".data (rcData ' ' "+".data v.data)))
  exact urlChain_no_pipe v h

/-- A markdown footnote line is pipe-free when its verses are. -/
theorem mdFootnoteLine_no_pipe (f : Footnote) (h : pipeFree f.verses) :
    pipeFree (mdFootnoteLine f) := by
  unfold mdFootnoteLine
  refine pipeFree_append _ _ (pipeFree_append _ _ (pipeFree_append _ _
    (pipeFree_append _ _ (pipeFree_append _ _ ?_ (by decide)) h) (by decide))
    (url_no_pipe _ h)) (by decide)
  exact toString_nat_no_pipe f.number

/-- The reference block is pipe-free when every footnote's verses are. -/
theorem format_footnotes_no_pipe :
    ∀ fns : List Footnote, (∀ f ∈ fns, pipeFree f.verses) →
      pipeFree (format_footnotes fns) := by
  intro fns
  induction fns with
  | nil => intro _; decide
  | cons f rest ih =>
      intro h
      refine pipeFree_append _ _ ?_ (ih fun g hg => h g (by simp [hg]))
      by_cases hv : f.verses ≠ ""
      · rw [if_pos hv]
        exact mdFootnoteLine_no_pipe f (h f (by simp))
      · rw [if_neg hv]
        decide

/-- A conditional of two pipe-free strings is pipe-free. -/
theorem pipeFree_ite (c : Prop) [Decidable c] (a b : String)
    (ha : pipeFree a) (hb : pipeFree b) : pipeFree (if c then a else b) := by
  split
  · exact ha
  · exact hb

/-- The plain-mode loop emits pipe-free text and pipe-free footnote verses
whenever the sections are pipe-free. -/
theorem format_regular_aux_no_pipe :
    ∀ l : List Section, (∀ s ∈ l, pipeFree s.text ∧ pipeFree s.verses) → ∀ n : Nat,
      pipeFree (format_regular_aux l n).1
      ∧ ∀ f ∈ (format_regular_aux l n).2, pipeFree f.verses := by
  intro l
  induction l with
  | nil => exact fun _ n => ⟨(by decide : pipeFree ""), by simp [format_regular_aux]⟩
  | cons s rest ih =>
      intro h n
      have hs := h s (by simp)
      have ihr := ih fun t ht => h t (by simp [ht])
      by_cases ht : s.text = ""
      · rw [show format_regular_aux (s :: rest) n = format_regular_aux rest n from by
          simp [format_regular_aux, ht]]
        exact ihr n
      · by_cases hv : s.verses = ""
        · rw [show format_regular_aux (s :: rest) n
              = (s.text ++ " " ++ (format_regular_aux rest n).1,
                 (format_regular_aux rest n).2) from by
            simp [format_regular_aux, ht, hv]]
          exact ⟨pipeFree_append _ _ (pipeFree_append _ _ hs.1 (by decide)) (ihr n).1,
            (ihr n).2⟩
        · rw [show format_regular_aux (s :: rest) n
              = (s.text ++ marker n ++ " " ++ (format_regular_aux rest (n + 1)).1,
                 ⟨n, s.verses⟩ :: (format_regular_aux rest (n + 1)).2) from by
            simp [format_regular_aux, ht, hv]]
          refine ⟨pipeFree_append _ _ (pipeFree_append _ _ (pipeFree_append _ _ hs.1
            (marker_no_pipe n)) (by decide)) (ihr (n + 1)).1, ?_⟩
          intro f hf
          rcases List.mem_cons.mp hf with rfl | hf
          · exact hs.2
          · exact (ihr (n + 1)).2 f hf

/-- Same for the markdown intro loop. -/
theorem format_non_list_aux_no_pipe :
    ∀ l : List Section, (∀ s ∈ l, pipeFree s.text ∧ pipeFree s.verses) → ∀ n : Nat,
      pipeFree (format_non_list_aux l n).1
      ∧ ∀ f ∈ (format_non_list_aux l n).2, pipeFree f.verses := by
  intro l
  induction l with
  | nil => exact fun _ n => ⟨(by decide : pipeFree ""), by simp [format_non_list_aux]⟩
  | cons s rest ih =>
      intro h n
      have hs := h s (by simp)
      have ihr := ih fun t ht => h t (by simp [ht])
      by_cases hsk : s.text = "" ∨ is_enumerated_list_item s.text
      · rw [show format_non_list_aux (s :: rest) n = format_non_list_aux rest n from by
          simp [format_non_list_aux, hsk]]
        exact ihr n
      · by_cases hv : s.verses = ""
        · rw [show format_non_list_aux (s :: rest) n
              = (s.text ++ " " ++ (format_non_list_aux rest n).1,
                 (format_non_list_aux rest n).2) from by
            simp [format_non_list_aux, hsk, hv]]
          exact ⟨pipeFree_append _ _ (pipeFree_append _ _ hs.1 (by decide)) (ihr n).1,
            (ihr n).2⟩
        · rw [show format_non_list_aux (s :: rest) n
              = (s.text ++ marker n ++ " " ++ (format_non_list_aux rest (n + 1)).1,
                 ⟨n, s.verses⟩ :: (format_non_list_aux rest (n + 1)).2) from by
            simp [format_non_list_aux, hsk, hv]]
          refine ⟨pipeFree_append _ _ (pipeFree_append _ _ (pipeFree_append _ _ hs.1
            (marker_no_pipe n)) (by decide)) (ihr (n + 1)).1, ?_⟩
          intro f hf
          rcases List.mem_cons.mp hf with rfl | hf
          · exact hs.2
          · exact (ihr (n + 1)).2 f hf

/-- Same for the markdown list loop. -/
theorem md_list_aux_no_pipe :
    ∀ l : List Section, (∀ s ∈ l, pipeFree s.text ∧ pipeFree s.verses) →
      ∀ (n : Nat) (first : Bool),
      pipeFree (md_list_aux l n first).1
      ∧ ∀ f ∈ (md_list_aux l n first).2, pipeFree f.verses := by
  intro l
  induction l with
  | nil => exact fun _ n first => ⟨(by decide : pipeFree ""), by simp [md_list_aux]⟩
  | cons s rest ih =>
      intro h n first
      have hs := h s (by simp)
      have ihr := ih fun t ht => h t (by simp [ht])
      have hpre : pipeFree (if first = true then "" else "\n") := by
        cases first <;> decide
      by_cases hsk : s.text = "" ∨ ¬ is_enumerated_list_item s.text
      · rw [show md_list_aux (s :: rest) n first = md_list_aux rest n first from by
          rw [md_list_aux, if_pos hsk]]
        exact ihr n first
      · by_cases hv : s.verses = ""
        · rw [show md_list_aux (s :: rest) n first
              = ((if first = true then "" else "\n") ++ (get_list_item_number s.text).getD ""
                  ++ ". " ++ strip_list_item_number s.text ++ (md_list_aux rest n false).1,
                 (md_list_aux rest n false).2) from by
            rw [md_list_aux, if_neg hsk, if_neg (by simp [hv])]]
          exact ⟨pipeFree_append _ _ (pipeFree_append _ _ (pipeFree_append _ _
            (pipeFree_append _ _ hpre (itemNum_no_pipe _ hs.1)) (by decide))
            (stripped_no_pipe _ hs.1)) (ihr n false).1, (ihr n false).2⟩
        · rw [show md_list_aux (s :: rest) n first
              = ((if first = true then "" else "\n") ++ (get_list_item_number s.text).getD ""
                  ++ ". " ++ strip_list_item_number s.text ++ marker n
                  ++ (md_list_aux rest (n + 1) false).1,
                 ⟨n, s.verses⟩ :: (md_list_aux rest (n + 1) false).2) from by
            rw [md_list_aux, if_neg hsk, if_pos hv]]
          refine ⟨pipeFree_append _ _ (pipeFree_append _ _ (pipeFree_append _ _
            (pipeFree_append _ _ (pipeFree_append _ _ hpre (itemNum_no_pipe _ hs.1))
              (by decide)) (stripped_no_pipe _ hs.1)) (marker_no_pipe n))
            (ihr (n + 1) false).1, ?_⟩
          intro f hf
          rcases List.mem_cons.mp hf with rfl | hf
          · exact hs.2
          · exact (ihr (n + 1) false).2 f hf

/-- C5 fails as stated: a question with seven verse references renders with no
supplementary table at all — the whole markdown output contains no `'|'`
character, while a multi-column markdown reference table would need `'|'`
cell separators.  The renderer in the sources emits only the flat footnote
list. -/
theorem c5_counterexample :
    6 ≤ (exSeven.sections.filter fun s => s.verses ≠ "").length
    ∧ '|' ∉ (format_question exSeven).data := by
  constructor
  · decide
  · decide

/-- C5 (amended): the markdown renderer given in the sources never emits a
supplementary multi-column reference table, whatever the verse count: the
output is the heading, the answer body, the flat footnote list and the
separator, and it contains no `'|'` character whenever the question's id,
question text, section texts and verses contain none. -/
theorem c5_no_verse_table (q : Question)
    (hid : pipeFree q.id) (hq : pipeFree q.question)
    (hs : ∀ s ∈ q.sections, pipeFree s.text ∧ pipeFree s.verses) :
    pipeFree (format_question q) := by
  have hhead : pipeFree ("# Q. " ++ q.id ++ ": " ++ q.question ++ "\n\n" ++ "A: ") :=
    pipeFree_append _ _ (pipeFree_append _ _ (pipeFree_append _ _ (pipeFree_append _ _
      (pipeFree_append _ _ (by decide) hid) (by decide)) hq) (by decide)) (by decide)
  rw [show format_question q
      = ("# Q. " ++ q.id ++ ": " ++ q.question ++ "\n\n" ++ "A: ")
        ++ (if should_format_as_enumerated_list q.sections then
              (if (format_enumerated_list q.sections).1 ≠ "" then
                (format_enumerated_list q.sections).1 ++ "\n\n" else "")
              ++ (if (format_enumerated_list q.sections).2.1 ≠ "" then
                (format_enumerated_list q.sections).2.1 ++ "\n\n" else "")
            else (format_regular_sections q.sections).1 ++ "\n\n")
        ++ format_footnotes (if should_format_as_enumerated_list q.sections then
              (format_enumerated_list q.sections).2.2
            else (format_regular_sections q.sections).2)
        ++ "\n---\n\n" from rfl]
  by_cases hb : should_format_as_enumerated_list q.sections
  · rw [if_pos hb, if_pos hb]
    have hintro := format_non_list_aux_no_pipe q.sections hs 1
    have hlist := md_list_aux_no_pipe q.sections hs
      ((format_non_list_aux q.sections 1).2.length + 1) true
    have hintroStr : pipeFree (format_enumerated_list q.sections).1 :=
      pipeFree_pyStrip _ hintro.1
    have hlistStr : pipeFree (format_enumerated_list q.sections).2.1 := hlist.1
    have hfnsv : ∀ f ∈ (format_enumerated_list q.sections).2.2, pipeFree f.verses := by
      intro f hf
      rcases List.mem_append.mp hf with h | h
      · exact hintro.2 f h
      · exact hlist.2 f h
    refine pipeFree_append _ _ (pipeFree_append _ _ (pipeFree_append _ _ hhead ?_) ?_)
      (by decide)
    · exact pipeFree_append _ _
        (pipeFree_ite _ _ _ (pipeFree_append _ _ hintroStr (by decide)) (by decide))
        (pipeFree_ite _ _ _ (pipeFree_append _ _ hlistStr (by decide)) (by decide))
    · exact format_footnotes_no_pipe _ hfnsv
  · rw [if_neg hb, if_neg hb]
    have hreg := format_regular_aux_no_pipe q.sections hs 1
    refine pipeFree_append _ _ (pipeFree_append _ _ (pipeFree_append _ _ hhead ?_) ?_)
      (by decide)
    · exact pipeFree_append _ _ (pipeFree_pyStrip _ hreg.1) (by decide)
    · exact format_footnotes_no_pipe _ hreg.2

/-- C5 witness: the amended theorem evaluated at the seven-reference
question. -/
theorem c5_witness : pipeFree (format_question exSeven) :=
  c5_no_verse_table exSeven (by decide) (by decide) (by decide)

end Catechism
